import Mathlib

/-!
# Verification of the precomputed-tif volumetric pyramid engine

Shallow embedding, in Lean 4, of the coordinate/tiling grid, pyramid
downsampling, manifest generation, chunk-range reading and multi-volume
stitching algorithms of the `precomputed_tif` package
(`precomputed_tif/stack.py`, `precomputed_tif/blockfs_stack.py`,
`precomputed_tif/client.py`), together with theorems settling the frozen
specification claims about them.

Machine integers are modelled as `Nat` (all the quantities involved are
non-negative sizes and coordinates; the Python code computes with
arbitrary-precision ints and `np.uint64` accumulators that never overflow
for realistic volumes), signed coordinates in the stitcher as `Int`, and
numpy double-precision floats as real numbers.
-/

namespace PrecomputedTif

/-! ## Tiling grid (`StackBase` in `stack.py`)

`StackBase.resolution`, `n_x`, `x0`, `x1` (and the identical `y`/`z`
versions) are pure per-axis integer functions.  `x0(level)` is
`np.arange(0, ceil(extent / resolution), chunk)`, an arithmetic
progression; we embed it as the function `i ↦ i * chunk` on indices
`i < nStarts`, with `nStarts` the length of that `arange`.
`x1(level)` is `x0(level) + chunk` with the last entry clipped to
`ceil(extent / resolution)`. -/

/-- `StackBase.resolution`: pixels at the base level per pixel at `level`. -/
def resolution (level : ℕ) : ℕ := 2 ^ (level - 1)

/-- `ceil(extent / resolution(level))`, the per-axis voxel extent of a
mipmap level; the upper bound of `np.arange` in `StackBase.x0` and the
clipped last entry of `StackBase.x1`. -/
def levelExtent (extent level : ℕ) : ℕ :=
  (extent + resolution level - 1) / resolution level

/-- `StackBase.n_x` (= `n_y` = `n_z`, with that axis' extent and chunk
size): `(extent // 2^(level-1) + chunk - 1) // chunk`.  Note the *floor*
division of the extent, in contrast to `x0`/`x1` which use the ceiling. -/
def nBlocks (extent chunk level : ℕ) : ℕ :=
  (extent / 2 ^ (level - 1) + chunk - 1) / chunk

/-- Number of elements of `np.arange(0, levelExtent, chunk)`, i.e. the
length of the `StackBase.x0(level)` array. -/
def nStarts (extent chunk level : ℕ) : ℕ :=
  (levelExtent extent level + chunk - 1) / chunk

/-- `StackBase.x0(level)[i] = i * chunk` (element `i` of the `arange`). -/
def chunkStart (chunk i : ℕ) : ℕ := i * chunk

/-- `StackBase.x1(level)[i]`: `x0[i] + chunk`, except that the last array
element is overwritten with `ceil(extent / resolution)`. -/
def chunkEnd (extent chunk level i : ℕ) : ℕ :=
  if i + 1 = nStarts extent chunk level then levelExtent extent level
  else i * chunk + chunk

/-! ## Manifest scales (`StackBase.write_info_file`)

The `scales` loop appends one entry per level, recording the current
`[x_extent, y_extent, z_extent]` as `size` and then ceil-halving each
extent for the next iteration.  We record the per-level `size` triples in
`(x, y, z)` order, as the JSON `size` field does. -/

/-- One step of the `write_info_file` loop: `(e + 1) // 2` per axis. -/
def ceilHalf (n : ℕ) : ℕ := (n + 1) / 2

/-- The sequence of `size` triples written by `StackBase.write_info_file`:
entry for the current level, then recurse on the ceil-halved extents. -/
def infoSizes : ℕ → ℕ × ℕ × ℕ → List (ℕ × ℕ × ℕ)
  | 0, _ => []
  | n + 1, (x, y, z) =>
      (x, y, z) :: infoSizes n (ceilHalf x, ceilHalf y, ceilHalf z)

/-- `size` triples of `write_info_file(n_levels)` for per-axis extents
`x`, `y`, `z` (in the JSON's `[x_extent, y_extent, z_extent]` order). -/
def writeInfoSizes (nLevels x y z : ℕ) : List (ℕ × ℕ × ℕ) :=
  infoSizes nLevels (x, y, z)

/-! ## Pyramid downsampling (`Stack.write_one_level_n`,
`BlockfsStack.write_one_level_n`, `BlockfsStack.write_stack_level_n`)

`write_level_n(level)` iterates destination chunk indices
`(xidx, yidx, zidx)` over `range(n_x(level)) × range(n_y(level)) ×
range(n_z(level))` and calls the per-chunk worker with the level-`level`
and level-`level-1` coordinate arrays.  The worker accumulates, for each
of the up-to-8 source chunks `(xsi1 + 2*xidx, ysi1 + 2*yidx,
zsi1 + 2*zidx)` (`si1 ∈ {0, 1}`, skipped when an index equals
`n_*(level-1)`) and each of the 8 sub-lattice offsets
`(offx, offy, offz) ∈ {0, 1}³`, the slice `src_block[offz::2, offy::2,
offx::2]` into `block[zsi1*hz ..][ysi1*hy ..][xsi1*hx ..]` together with a
hit count, then divides (`Stack`/`BlockfsStack` image path) or instead
accumulates with `np.maximum` and no division (`BlockfsStack`
segmentation path).

We embed the worker per destination voxel `(iz, iy, ix)` (local to the
destination chunk).  Numpy's slice assignments are element-wise, so the
voxel's value is the sum (resp. maximum) of the contributions whose
placement window covers that voxel; `ℕ` addition and `max` are
commutative/associative, so the iteration order of the loops is
irrelevant and the accumulation is stated as a nested `Finset` sum
(resp. `Finset.sup`) over the same index set, grouped by axis. -/

/-- Length of the numpy slice `arr[off::2]` of a length-`L` axis. -/
def dsLen (L off : ℕ) : ℕ := (L - off + 1) / 2

/-- The level-`lv` source chunk `(xsi, ysi, zsi)` as read back by the
level-`lv+1` build (`StackBase.read_file` of the stored tiff /
`Directory.read_block`): the chunk written for grid bounds
`[chunkStart, chunkEnd)` holds the source volume `src` (indexed on the
level-`lv` lattice, `z y x` order) shifted by the chunk origin; indices
beyond the stored shape are out of bounds (modelled as 0, never read by
the worker). -/
def srcBlock (src : ℕ → ℕ → ℕ → ℕ) (ex ey ez cx cy cz lv : ℕ)
    (xsi ysi zsi lz ly lx : ℕ) : ℕ :=
  if lz < chunkEnd ez cz lv zsi - chunkStart cz zsi ∧
     ly < chunkEnd ey cy lv ysi - chunkStart cy ysi ∧
     lx < chunkEnd ex cx lv xsi - chunkStart cx xsi then
    src (chunkStart cz zsi + lz) (chunkStart cy ysi + ly)
      (chunkStart cx xsi + lx)
  else 0

/-- The per-axis guard of one `(si1, off)` contribution of the level-n
worker at destination-local index `i`: the source chunk index
`si1 + idx*2` is not `n_x(lv)` (the `continue` skip), and `i` lies in the
destination rows `[si1*h, si1*h + dsblock.shape)` covered by the placed
slice `src_block[off::2]` (`h = chunk // 2`). -/
@[reducible] def axisCond (e c lv idx si1 off i : ℕ) : Prop :=
  si1 + idx * 2 ≠ nBlocks e c lv ∧
  si1 * (c / 2) ≤ i ∧
  i < si1 * (c / 2) +
    dsLen (chunkEnd e c lv (si1 + idx * 2) - chunkStart c (si1 + idx * 2))
      off

/-- The source-chunk-local index read for that contribution:
`off + 2 * (row within the placed slice)`. -/
def axisSrc (c si1 off i : ℕ) : ℕ := off + 2 * (i - si1 * (c / 2))

/-- `Stack.write_one_level_n` / `BlockfsStack.write_one_level_n`
(the image path, identical in both backends), per destination voxel:
the summed contributions and hit count over the up-to-8 source chunks and
8 sub-lattice offsets, then `block // hits` where `hits > 0`. -/
def writeOneLevelN (src : ℕ → ℕ → ℕ → ℕ) (ex ey ez cx cy cz level : ℕ)
    (xidx yidx zidx iz iy ix : ℕ) : ℕ :=
  let lv := level - 1
  let hits := ∑ xsi1 ∈ Finset.range 2, ∑ offx ∈ Finset.range 2,
    ∑ ysi1 ∈ Finset.range 2, ∑ offy ∈ Finset.range 2,
    ∑ zsi1 ∈ Finset.range 2, ∑ offz ∈ Finset.range 2,
    if axisCond ex cx lv xidx xsi1 offx ix ∧
       axisCond ey cy lv yidx ysi1 offy iy ∧
       axisCond ez cz lv zidx zsi1 offz iz then 1 else 0
  let block := ∑ xsi1 ∈ Finset.range 2, ∑ offx ∈ Finset.range 2,
    ∑ ysi1 ∈ Finset.range 2, ∑ offy ∈ Finset.range 2,
    ∑ zsi1 ∈ Finset.range 2, ∑ offz ∈ Finset.range 2,
    if axisCond ex cx lv xidx xsi1 offx ix ∧
       axisCond ey cy lv yidx ysi1 offy iy ∧
       axisCond ez cz lv zidx zsi1 offz iz then
      srcBlock src ex ey ez cx cy cz lv (xsi1 + xidx * 2) (ysi1 + yidx * 2)
        (zsi1 + zidx * 2) (axisSrc cz zsi1 offz iz) (axisSrc cy ysi1 offy iy)
        (axisSrc cx xsi1 offx ix)
    else 0
  if 0 < hits then block / hits else block

/-- `BlockfsStack.write_stack_level_n` (the segmentation path), per
destination voxel: the same contributions accumulated with `np.maximum`
into a zero-initialised block, with no hit count and no division. -/
def writeStackLevelN (src : ℕ → ℕ → ℕ → ℕ) (ex ey ez cx cy cz level : ℕ)
    (xidx yidx zidx iz iy ix : ℕ) : ℕ :=
  let lv := level - 1
  Finset.sup (Finset.range 2) fun xsi1 =>
    Finset.sup (Finset.range 2) fun offx =>
    Finset.sup (Finset.range 2) fun ysi1 =>
    Finset.sup (Finset.range 2) fun offy =>
    Finset.sup (Finset.range 2) fun zsi1 =>
    Finset.sup (Finset.range 2) fun offz =>
    if axisCond ex cx lv xidx xsi1 offx ix ∧
       axisCond ey cy lv yidx ysi1 offy iy ∧
       axisCond ez cz lv zidx zsi1 offz iz then
      srcBlock src ex ey ez cx cy cz lv (xsi1 + xidx * 2) (ysi1 + yidx * 2)
        (zsi1 + zidx * 2) (axisSrc cz zsi1 offz iz) (axisSrc cy ysi1 offy iy)
        (axisSrc cx xsi1 offx ix)
    else 0

/-- The per-axis extent of the level-`lv` data the build actually wrote:
the end bound of chunk `n_x(lv) - 1`, i.e. `min(n_x(lv)*chunk,
ceil(extent/2^(lv-1)))` (these coincide except in the `n_x`-vs-`x0`
mismatch of claim C4). -/
def availExtent (e c lv : ℕ) : ℕ :=
  min (nBlocks e c lv * c) (levelExtent e lv)

/-- The valid 2×2×2 neighborhood of the destination voxel with global
level-`level` coordinates `(gz, gy, gx)`: sub-lattice offsets
`(oz, oy, ox) ∈ {0,1}³` whose level-`level-1` coordinate `2*g + o` falls
inside the available source data on every axis. -/
def validNbrs (ex ey ez cx cy cz level gx gy gz : ℕ) : Finset (ℕ × ℕ × ℕ) :=
  (Finset.range 2 ×ˢ Finset.range 2 ×ˢ Finset.range 2).filter fun o =>
    2 * gx + o.1 < availExtent ex cx (level - 1) ∧
    2 * gy + o.2.1 < availExtent ey cy (level - 1) ∧
    2 * gz + o.2.2 < availExtent ez cz (level - 1)

/-! ## Chunk-range reader (`client.py`)

`read_chunk(url, x0, x1, y0, y1, z0, z1, level)` allocates a zero array
of shape `(z1-z0, y1-y0, x1-x0)`, computes the chunk-aligned cover of the
query from the manifest's `size` (`shape`), `voxel_offset` (`offset`) and
`chunk_sizes` (`stride`), and for every covering chunk fetches the chunk
block, clips it to the query with four sequential slice/reassign steps
per axis, and copies it into the result at the corresponding offset.
The store is abstracted as a total function `fetch` from the six chunk
bounds to the block contents (`z, y, x` local order), mirroring §4.3's
ChunkStore read capability.  The transcription is exact for
`voxel_offset = [0,0,0]` manifests, which is the only offset
`write_info_file` ever produces (Python's negative-slice wrap-around for
queries below a positive offset is outside the modelled domain). -/

/-- `client._chunk_start(coord, offset, stride)`. -/
def pyChunkStart (coord offset stride : ℕ) : ℕ :=
  if coord < offset then offset else coord - (coord - offset) % stride

/-- `client._chunk_end(coord, offset, stride, end)`. -/
def pyChunkEnd (coord offset stride endv : ℕ) : ℕ :=
  if pyChunkStart coord offset stride + stride > endv then endv
  else pyChunkStart coord offset stride + stride

/-- Python `range(a, b, s)` for a positive step `s`. -/
def pyRange (a b s : ℕ) : List ℕ :=
  List.range' a ((b - a + s - 1) / s) s

/-- The chunk origins enumerated by `read_chunk`'s
`itertools.product(range(x0d, x1d, stride[0]), …)` loop, as
`(x0c, y0c, z0c)` triples in the loop's order. -/
def chunkOrigins (x0d x1d stx y0d y1d sty z0d z1d stz : ℕ) :
    List (ℕ × ℕ × ℕ) :=
  (pyRange x0d x1d stx).flatMap fun x0c =>
    (pyRange y0d y1d sty).flatMap fun y0c =>
      (pyRange z0d z1d stz).map fun z0c => (x0c, y0c, z0c)

/-- Rows of the fetched chunk dropped by the leading clip
(`if z0c < z0: chunk = chunk[z0 - z0c:]`). -/
def clipLow (c0 q0 : ℕ) : ℕ := if c0 < q0 then q0 - c0 else 0

/-- The chunk origin after the leading clip (`z0c = z0` when clipped). -/
def clipStart (c0 q0 : ℕ) : ℕ := if c0 < q0 then q0 else c0

/-- The chunk length after both clips (`if z1c > z1: chunk =
chunk[:z1 - z0c]`, on top of the leading clip). -/
def clipLen (c0 c1 q0 q1 : ℕ) : ℕ :=
  if c1 > q1 then q1 - clipStart c0 q0 else c1 - clipStart c0 q0

/-- One iteration of `read_chunk`'s loop: fetch the chunk at origin
`t = (x0c, y0c, z0c)` with ends `min(x1d, x0c + stride)` …, clip it to
the query, and write it into the result at
`result[z0c - z0 : z0c - z0 + chunk.shape[0], …] = chunk` (as a
functional update of the result array). -/
def readChunkBody (fetch : ℕ → ℕ → ℕ → ℕ → ℕ → ℕ → (ℕ → ℕ → ℕ → ℕ))
    (stx sty stz x1d y1d z1d x0 x1 y0 y1 z0 z1 : ℕ) (t : ℕ × ℕ × ℕ)
    (res : ℕ → ℕ → ℕ → ℕ) : ℕ → ℕ → ℕ → ℕ :=
  fun pz py px =>
    if (clipStart t.2.2 z0 - z0 ≤ pz ∧
        pz < (clipStart t.2.2 z0 - z0) +
          clipLen t.2.2 (min z1d (t.2.2 + stz)) z0 z1) ∧
       (clipStart t.2.1 y0 - y0 ≤ py ∧
        py < (clipStart t.2.1 y0 - y0) +
          clipLen t.2.1 (min y1d (t.2.1 + sty)) y0 y1) ∧
       (clipStart t.1 x0 - x0 ≤ px ∧
        px < (clipStart t.1 x0 - x0) +
          clipLen t.1 (min x1d (t.1 + stx)) x0 x1) then
      fetch t.1 (min x1d (t.1 + stx)) t.2.1 (min y1d (t.2.1 + sty))
        t.2.2 (min z1d (t.2.2 + stz))
        (clipLow t.2.2 z0 + (pz - (clipStart t.2.2 z0 - z0)))
        (clipLow t.2.1 y0 + (py - (clipStart t.2.1 y0 - y0)))
        (clipLow t.1 x0 + (px - (clipStart t.1 x0 - x0)))
    else res pz py px

/-- `client.read_chunk`: the result array (zero-initialised, indexed
`(pz, py, px)` within shape `(z1-z0, y1-y0, x1-x0)`) after folding the
per-chunk copy over every covering chunk. -/
def readChunk (fetch : ℕ → ℕ → ℕ → ℕ → ℕ → ℕ → (ℕ → ℕ → ℕ → ℕ))
    (sx sy sz ox oy oz stx sty stz x0 x1 y0 y1 z0 z1 : ℕ) :
    ℕ → ℕ → ℕ → ℕ :=
  (chunkOrigins (pyChunkStart x0 ox stx) (pyChunkEnd x1 ox stx (ox + sx))
      stx (pyChunkStart y0 oy sty) (pyChunkEnd y1 oy sty (oy + sy)) sty
      (pyChunkStart z0 oz stz) (pyChunkEnd z1 oz stz (oz + sz))
      stz).foldl
    (fun res t => readChunkBody fetch stx sty stz
      (pyChunkEnd x1 ox stx (ox + sx)) (pyChunkEnd y1 oy sty (oy + sy))
      (pyChunkEnd z1 oz stz (oz + sz)) x0 x1 y0 y1 z0 z1 t res)
    fun _ _ _ => 0

/-- The shape of `read_chunk`'s result (`np.zeros((z1-z0, y1-y0, x1-x0))`,
of the manifest's dtype). -/
def readChunkShape (x0 x1 y0 y1 z0 z1 : ℕ) : ℕ × ℕ × ℕ :=
  (z1 - z0, y1 - y0, x1 - x0)

/-- The chunk store produced by `Stack.write_level_1` /
`Stack.write_one_level_1` over a source volume `src` (plane `z` of the
stack holds `src z · ·`): under each level-1 grid name
`(x0a, x1a, y0a, y1a, z0a, z1a)` (a chunk-aligned start and a
length clipped to the extent on every axis) the written tiff holds
`img[z0a:z1a, y0a:y1a, x0a:x1a]`, i.e. local voxel `(lz, ly, lx)` of the
stored block is `src (z0a+lz) (y0a+ly) (x0a+lx)`; nothing is stored
under any other name. -/
def level1Fetch (src : ℕ → ℕ → ℕ → ℕ) (ex ey ez cx cy cz : ℕ)
    (x0a x1a y0a y1a z0a z1a : ℕ) : ℕ → ℕ → ℕ → ℕ := fun lz ly lx =>
  if (x0a % cx = 0 ∧ x0a < ex ∧ x1a = min (x0a + cx) ex) ∧
     (y0a % cy = 0 ∧ y0a < ey ∧ y1a = min (y0a + cy) ey) ∧
     (z0a % cz = 0 ∧ z0a < ez ∧ z1a = min (z0a + cz) ez) ∧
     lz < z1a - z0a ∧ ly < y1a - y0a ∧ lx < x1a - x0a then
    src (z0a + lz) (y0a + ly) (x0a + lx)
  else 0

/-! ## Array reader indexing (`ArrayReaderBase.__getitem__`)

`reader[key]` takes a 3-element key of slices and integers.  Per axis it
computes `(start, stop, step, squish)` through the inner helpers `s` and
`e` (negative indices count from the axis extent, `None` start means 0,
`None` stop means the extent; an integer `i` gives `(s(i), s(i)+1, 1)`
and marks the axis for squeezing), calls
`read_chunk(x0, x1, y0, y1, z0, z1)`, sub-samples the assembled dense
block with `[::zs, ::ys, ::xs]`, and drops each squeezed axis.  The
reader is abstracted as its `read_chunk` function `readc` and its
`shape`; steps are modelled as positive naturals (`None` meaning 1, the
only steps this system's callers use). -/

/-- One element of an indexing key: a slice with optional bounds and
step, or a bare integer. -/
inductive PyIndex where
  | sl (start stop : Option ℤ) (step : Option ℕ)
  | idx (i : ℤ)

/-- The local function `s` of `__getitem__`: `None ↦ 0`, negative
`↦ shape + idx`, otherwise the index itself. -/
def sIdx (shape : ℕ) : Option ℤ → ℤ
  | none => 0
  | some i => if i < 0 then (shape : ℤ) + i else i

/-- The local function `e` of `__getitem__`: `None ↦ shape`, negative
`↦ shape + idx`, otherwise the index itself. -/
def eIdx (shape : ℕ) : Option ℤ → ℤ
  | none => shape
  | some i => if i < 0 then (shape : ℤ) + i else i

/-- The per-axis start bound (`z0 = s(key[0].start)` for a slice,
`z0 = s(key[0])` for an integer). -/
def axisStart (shape : ℕ) : PyIndex → ℤ
  | PyIndex.sl st _ _ => sIdx shape st
  | PyIndex.idx i => sIdx shape (some i)

/-- The per-axis stop bound (`z1 = e(key[0].stop)` for a slice,
`z1 = z0 + 1` for an integer). -/
def axisStop (shape : ℕ) : PyIndex → ℤ
  | PyIndex.sl _ sp _ => eIdx shape sp
  | PyIndex.idx i => sIdx shape (some i) + 1

/-- The per-axis step (`zs = key[0].step`, `None` acting as 1; an
integer index gets step 1). -/
def axisStep : PyIndex → ℕ
  | PyIndex.sl _ _ stp => stp.getD 1
  | PyIndex.idx _ => 1

/-- Whether the axis is squeezed from the result (`zsquish`). -/
def axisSquish : PyIndex → Bool
  | PyIndex.sl _ _ _ => false
  | PyIndex.idx _ => true

/-- The per-axis result length: the length of `arr[::step]` over the
`stop - start` rows returned by `read_chunk`. -/
def axisLen (shape : ℕ) (k : PyIndex) : ℕ :=
  ((axisStop shape k - axisStart shape k).toNat + axisStep k - 1) /
    axisStep k

/-- The result of `__getitem__` before the squeezes are materialised:
the (pre-squeeze) per-axis lengths, the voxel accessor, and which axes
the trailing `block[:, :, 0]`-style squeezes remove. -/
structure ItemResult (α : Type) where
  dims : ℕ × ℕ × ℕ
  val : ℕ → ℕ → ℕ → α
  squish : Bool × Bool × Bool

/-- `ArrayReaderBase.__getitem__`: compute the per-axis bounds, read the
dense block with `read_chunk(x0, x1, y0, y1, z0, z1)`, sub-sample it by
the steps, and record the squeezed axes. -/
def getItem {α : Type} (readc : ℤ → ℤ → ℤ → ℤ → ℤ → ℤ → (ℕ → ℕ → ℕ → α))
    (shape : ℕ × ℕ × ℕ) (kz ky kx : PyIndex) : ItemResult α where
  dims := (axisLen shape.1 kz, axisLen shape.2.1 ky, axisLen shape.2.2 kx)
  val := fun i j k =>
    readc (axisStart shape.2.2 kx) (axisStop shape.2.2 kx)
      (axisStart shape.2.1 ky) (axisStop shape.2.1 ky)
      (axisStart shape.1 kz) (axisStop shape.1 kz)
      (i * axisStep kz) (j * axisStep ky) (k * axisStep kx)
  squish := (axisSquish kz, axisSquish ky, axisSquish kx)

/-- The result's final shape: the per-axis lengths with the squeezed
axes removed. -/
def finalShape {α : Type} (r : ItemResult α) : List ℕ :=
  (if r.squish.1 then [] else [r.dims.1]) ++
    (if r.squish.2.1 then [] else [r.dims.2.1]) ++
    (if r.squish.2.2 then [] else [r.dims.2.2])

/-! ## Multi-volume stitcher (`DANDIArrayReader`)

`DANDIArrayReader` composes several offset volumes.  `get(idx, …)`
returns, for a query rectangle, the volume's data zero-padded to the
query shape together with the per-voxel distance to the volume's nearest
face (negative outside the volume), or `None` when the volume's bounding
box misses the rectangle.  `read_chunk` then keeps, per voxel, the
closest-ranked source `a` (largest distance-to-edge; ties go to the
later source) and the second-closest `b` through element-wise mask
updates, and writes: nothing contributing → 0, one → `datas[a]`, two or
more → `sin(angle)² · datas[a] + cos(angle)² · datas[b]` with
`angle = arctan2(dist_a, dist_b)`.

All numpy operations involved are element-wise, so we embed the
computation per output voxel at global coordinates `(gz, gy, gx)`.  The
mask updates move the index pairs `(a, ad)`/`(b, bd)` together and the
final gather reads `datas[a]`/`datas[b]`, so carrying `(value, distance)`
pairs directly is an exact refactoring.  numpy float64 arithmetic is
modelled over `ℝ`; the blended value is the one computed before the
final cast to the integer dtype (the single-source and zero-source cases
are integer-exact). -/

/-- One stitched source volume: its global offsets (`DANDIArrayReader.x0
= offsets[idx]`, etc.), the underlying reader's shape `(sz, sy, sx)`
(so the box ends are `offset + shape`), and its voxels addressed in
global coordinates. -/
structure VolSrc where
  z0 : ℤ
  y0 : ℤ
  x0 : ℤ
  sz : ℕ
  sy : ℕ
  sx : ℕ
  val : ℤ → ℤ → ℤ → ℕ

/-- The bounding-box test of `DANDIArrayReader.get` (the early `return`
yields `None` exactly when this fails). -/
@[reducible] def volIntersects (v : VolSrc) (x0 x1 y0 y1 z0 z1 : ℤ) :
    Prop :=
  ¬ (v.x0 ≥ x1 ∨ x0 ≥ v.x0 + v.sx ∨ v.y0 ≥ y1 ∨ y0 ≥ v.y0 + v.sy ∨
     v.z0 ≥ z1 ∨ z0 ≥ v.z0 + v.sz)

/-- `get`'s distance plane at the voxel: `min(xd, min(yd, zd))` with
`xd = min(g - x0c, x1c - 1 - g)` per axis (negative outside the box). -/
def volDist (v : VolSrc) (gz gy gx : ℤ) : ℤ :=
  min (min (gx - v.x0) (v.x0 + v.sx - 1 - gx))
    (min (min (gy - v.y0) (v.y0 + v.sy - 1 - gy))
      (min (gz - v.z0) (v.z0 + v.sz - 1 - gz)))

/-- `get`'s data plane at the voxel: the reader's value inside the
volume-box ∩ query region (`data[z0a-z0:z1a-z0, …] = chunk`), zero
elsewhere in the zero-initialised buffer. -/
def volDatum (v : VolSrc) (x0 x1 y0 y1 z0 z1 gz gy gx : ℤ) : ℕ :=
  if max v.z0 z0 ≤ gz ∧ gz < min (v.z0 + v.sz) z1 ∧
     max v.y0 y0 ≤ gy ∧ gy < min (v.y0 + v.sy) y1 ∧
     max v.x0 x0 ≤ gx ∧ gx < min (v.x0 + v.sx) x1 then
    v.val gz gy gx
  else 0

/-- Whether the voxel lies inside the volume's box (equivalently, its
distance plane is non-negative there). -/
@[reducible] def insideVol (v : VolSrc) (gz gy gx : ℤ) : Prop :=
  v.z0 ≤ gz ∧ gz < v.z0 + v.sz ∧ v.y0 ≤ gy ∧ gy < v.y0 + v.sy ∧
    v.x0 ≤ gx ∧ gx < v.x0 + v.sx

/-- The per-voxel ranking state of `read_chunk`: the value and distance
of the closest-ranked source `a` and second-closest `b`
(`ad = bd = -1` initially, standing for "unset"). -/
structure BlendState where
  av : ℕ
  ad : ℤ
  bv : ℕ
  bd : ℤ

/-- One mask update of `read_chunk` for a source with (value, distance)
`p`: `a_mask = distance >= max(0, ad)` demotes `a` to `b` and installs
the source as `a`; otherwise `b_mask = distance >= max(0, bd)` installs
it as `b`; otherwise nothing changes. -/
def blendStep (st : BlendState) (p : ℕ × ℤ) : BlendState :=
  if p.2 ≥ max 0 st.ad then ⟨p.1, p.2, st.av, st.ad⟩
  else if p.2 ≥ max 0 st.bd then ⟨st.av, st.ad, p.1, p.2⟩
  else st

/-- The initial state (`a = b = 0`, `ad = bd = -1`). -/
def blendInit : BlendState := ⟨0, -1, 0, -1⟩

/-- Models `np.arctan2 y x` on the closed first quadrant, the only
domain the blender uses (both distances non-negative): `arctan (y/x)`
for `x > 0`, `π/2` on the positive `y`-axis, and `arctan2 0 0 = 0`. -/
noncomputable def atan2 (y x : ℝ) : ℝ :=
  if x = 0 then (if y = 0 then 0 else Real.pi / 2)
  else Real.arctan (y / x)

/-- The cosine cross-fade of `read_chunk`:
`sin(angle)² · value_a + cos(angle)² · value_b` with
`angle = arctan2(dist_a, dist_b)`. -/
noncomputable def blend (va vb : ℕ) (da db : ℤ) : ℝ :=
  Real.sin (atan2 (da : ℝ) (db : ℝ)) ^ 2 * (va : ℝ) +
    Real.cos (atan2 (da : ℝ) (db : ℝ)) ^ 2 * (vb : ℝ)

/-- The per-voxel result of `DANDIArrayReader.read_chunk` over the
(value, distance) entries of the contributing (non-`None`) sources, in
source order: rank with the mask machine, then blend (`bd ≥ 0`), copy
(`ad ≥ 0 > bd`) or leave zero. -/
noncomputable def stitchVoxel (entries : List (ℕ × ℤ)) : ℝ :=
  if (entries.foldl blendStep blendInit).bd ≥ 0 then
    blend (entries.foldl blendStep blendInit).av
      (entries.foldl blendStep blendInit).bv
      (entries.foldl blendStep blendInit).ad
      (entries.foldl blendStep blendInit).bd
  else if (entries.foldl blendStep blendInit).ad ≥ 0 then
    ((entries.foldl blendStep blendInit).av : ℝ)
  else 0

/-- `DANDIArrayReader.read_chunk` at one output voxel: the non-`None`
sources (bounding box intersecting the query) contribute their data and
distance planes at the voxel, in order. -/
noncomputable def dandiReadVoxel (vols : List VolSrc)
    (x0 x1 y0 y1 z0 z1 gz gy gx : ℤ) : ℝ :=
  stitchVoxel ((vols.filter fun v =>
      decide (volIntersects v x0 x1 y0 y1 z0 z1)).map
    fun v => (volDatum v x0 x1 y0 y1 z0 z1 gz gy gx, volDist v gz gy gx))

end PrecomputedTif

namespace PrecomputedTif

/-! ### Theorems: tiling grid (claims C3, C4) -/

/-- Helper: characterization of ceiling division `(e + c - 1) / c`. -/
lemma ceilDiv_spec (e c : ℕ) (hc : 0 < c) (he : 0 < e) :
    e ≤ (e + c - 1) / c * c ∧ (e + c - 1) / c * c < e + c := by
  rcases Nat.exists_eq_succ_of_ne_zero (Nat.pos_iff_ne_zero.mp he) with ⟨d, rfl⟩
  have harg : d + 1 + c - 1 = d + c := by omega
  rw [harg]
  have h := Nat.div_add_mod (d + c) c
  have hm : (d + c) % c < c := Nat.mod_lt _ hc
  rw [Nat.mul_comm, Nat.succ_eq_add_one]
  omega

/-- C3: for every positive extent and chunk size and every level `L ≥ 1`,
the per-axis chunk bounds `x0(L)`/`x1(L)` (elements `chunkStart`/`chunkEnd`,
array length `nStarts`) exactly tile `[0, ceil(extent / 2^(L-1)))`:
the first start is `0`, consecutive chunks abut (`start[i+1] = end[i]`),
the last end is the level extent, all interior chunks have length exactly
`chunk`, and the last chunk's length is positive and at most `chunk`
(clipped, never padded).  The same function is used for the X, Y and Z
axes in the source. -/
theorem tilingGrid_tiles (extent chunk level : ℕ)
    (hex : 0 < extent) (hc : 0 < chunk) (_hl : 1 ≤ level) :
    0 < nStarts extent chunk level ∧
    chunkStart chunk 0 = 0 ∧
    (∀ i, i + 1 < nStarts extent chunk level →
      chunkEnd extent chunk level i = chunkStart chunk (i + 1)) ∧
    chunkEnd extent chunk level (nStarts extent chunk level - 1) =
      levelExtent extent level ∧
    (∀ i, i + 1 < nStarts extent chunk level →
      chunkEnd extent chunk level i - chunkStart chunk i = chunk) ∧
    (0 < chunkEnd extent chunk level (nStarts extent chunk level - 1) -
        chunkStart chunk (nStarts extent chunk level - 1) ∧
      chunkEnd extent chunk level (nStarts extent chunk level - 1) -
        chunkStart chunk (nStarts extent chunk level - 1) ≤ chunk) := by
  have hres : 0 < resolution level := Nat.pos_pow_of_pos _ (by norm_num)
  have hle : 0 < levelExtent extent level := by
    have : resolution level ≤ extent + resolution level - 1 := by omega
    exact Nat.div_pos this hres
  obtain ⟨hge, hlt⟩ := ceilDiv_spec (levelExtent extent level) chunk hc hle
  set E := levelExtent extent level with hE
  set n := nStarts extent chunk level with hn
  have hnc : n = (E + chunk - 1) / chunk := rfl
  rw [← hnc] at hge hlt
  have hns : 0 < n := by
    rcases Nat.eq_zero_or_pos n with h0 | h0
    · rw [h0, Nat.zero_mul] at hge; omega
    · exact h0
  have hsplit : n * chunk = (n - 1) * chunk + chunk := by
    rcases Nat.exists_eq_succ_of_ne_zero (Nat.pos_iff_ne_zero.mp hns)
      with ⟨m, hm⟩
    rw [hm, Nat.succ_sub_one, Nat.succ_mul]
  refine ⟨hns, by simp [chunkStart], ?_, ?_, ?_, ?_⟩
  · intro i hi
    unfold chunkEnd chunkStart
    rw [if_neg (by omega)]
    ring
  · unfold chunkEnd
    rw [if_pos (by omega)]
  · intro i hi
    unfold chunkEnd chunkStart
    rw [if_neg (by omega)]
    exact Nat.add_sub_cancel_left _ _
  · unfold chunkEnd chunkStart
    rw [if_pos (by omega)]
    omega

/-- Closed witness for `tilingGrid_tiles` at `extent = 101`, `chunk = 64`,
`level = 2` (the spec's concrete scenario): the level-2 grid on the Z axis
has starts `[0]` and ends `[51]`. -/
theorem tilingGrid_tiles_witness :
    (0 < 101 ∧ 0 < 64 ∧ 1 ≤ 2) ∧
    (0 < nStarts 101 64 2 ∧
      chunkStart 64 0 = 0 ∧
      (∀ i, i + 1 < nStarts 101 64 2 →
        chunkEnd 101 64 2 i = chunkStart 64 (i + 1)) ∧
      chunkEnd 101 64 2 (nStarts 101 64 2 - 1) = levelExtent 101 2 ∧
      (∀ i, i + 1 < nStarts 101 64 2 →
        chunkEnd 101 64 2 i - chunkStart 64 i = 64) ∧
      (0 < chunkEnd 101 64 2 (nStarts 101 64 2 - 1) -
          chunkStart 64 (nStarts 101 64 2 - 1) ∧
        chunkEnd 101 64 2 (nStarts 101 64 2 - 1) -
          chunkStart 64 (nStarts 101 64 2 - 1) ≤ 64)) :=
  ⟨by norm_num, tilingGrid_tiles 101 64 2 (by norm_num) (by norm_num)
    (by norm_num)⟩

/-- C4 (code bug): `n_x` computes the block count from the *floor* of
`extent / 2^(level-1)` while the `x0` grid is built over the *ceiling*.
For `extent = 129`, `chunk = 64`, `level = 2` the floor extent is `64`
(one block) but the grid `[0, 65)` has two chunk starts `0` and `64`,
so the level-2 build loop (`range(n_x(2))`) never visits the grid chunk
`[64, 65)` even though `write_info_file` declares a level-2 size of `65`.
This theorem evaluates both sides at the failing input. -/
theorem nBlocks_ne_nStarts_at_129 :
    nBlocks 129 64 2 = 1 ∧
    nStarts 129 64 2 = 2 ∧
    levelExtent 129 2 = 65 ∧
    chunkStart 64 1 = 64 ∧ chunkEnd 129 64 2 1 = 65 ∧
    writeInfoSizes 2 129 1 1 = [(129, 1, 1), (65, 1, 1)] ∧
    nBlocks 129 64 2 ≠ nStarts 129 64 2 := by
  refine ⟨?_, ?_, ?_, ?_, ?_, ?_, ?_⟩ <;> decide

/-! ### Theorems: manifest scales (claim C10) -/

/-- C10: `write_info_file(n_levels)` lists one scale per level `1..N`;
the level-1 `size` is the source extents and each subsequent level's
`size` is the per-axis ceil-halving `(size + 1) // 2` of the previous
one; in particular, for a `(z, y, x) = (101, 200, 300)` source volume the
level-2 size triple is `(z, y, x) = (51, 100, 150)` (stored in the JSON
as `[x, y, z] = [150, 100, 51]`). -/
theorem writeInfoSizes_ceilHalving (nLevels x y z : ℕ) (hn : 1 ≤ nLevels) :
    (writeInfoSizes nLevels x y z).length = nLevels ∧
    (writeInfoSizes nLevels x y z).head? = some (x, y, z) ∧
    (∀ i, i + 1 < nLevels →
      (writeInfoSizes nLevels x y z).get? (i + 1) =
        Option.map (fun s => (ceilHalf s.1, ceilHalf s.2.1, ceilHalf s.2.2))
          ((writeInfoSizes nLevels x y z).get? i)) ∧
    writeInfoSizes 2 300 200 101 = [(300, 200, 101), (150, 100, 51)] := by
  refine ⟨?_, ?_, ?_, by decide⟩
  · -- length
    clear hn
    induction nLevels generalizing x y z with
    | zero => rfl
    | succ n ih => simpa [writeInfoSizes, infoSizes] using ih _ _ _
  · cases nLevels with
    | zero => omega
    | succ n => rfl
  · clear hn
    intro i hi
    induction nLevels generalizing x y z i with
    | zero => omega
    | succ n ih =>
      cases n with
      | zero => omega
      | succ m =>
        cases i with
        | zero => rfl
        | succ j =>
          have := ih (ceilHalf x) (ceilHalf y) (ceilHalf z) j (by omega)
          simpa [writeInfoSizes, infoSizes] using this

/-! ### Arithmetic facts relating the floor-based block counts and the
ceiling-based grids, used by the downsample theorems. -/

/-- Valid chunk starts: index `j` is in the `arange` iff `j*c` is below
the level extent. -/
lemma lt_ceilDiv_iff (E c j : ℕ) (hc : 0 < c) :
    j < (E + c - 1) / c ↔ j * c < E := by
  rcases Nat.eq_zero_or_pos E with hE | hE
  · subst hE
    have h0 : (0 + c - 1) / c = 0 := Nat.div_eq_of_lt (by omega)
    rw [h0]
    omega
  · obtain ⟨hge, hlt⟩ := ceilDiv_spec E c hc hE
    set n := (E + c - 1) / c with hn
    constructor
    · intro hj
      have h1 : (j + 1) * c ≤ n * c := Nat.mul_le_mul_right c (by omega)
      have h2 : (j + 1) * c = j * c + c := by ring
      omega
    · intro hj
      have h1 : j * c < n * c := by omega
      exact Nat.lt_of_mul_lt_mul_right h1

/-- The floor-based block count never exceeds the grid length. -/
lemma nBlocks_le_nStarts (e c lv : ℕ) :
    nBlocks e c lv ≤ nStarts e c lv := by
  unfold nBlocks nStarts levelExtent resolution
  apply Nat.div_le_div_right
  have h1 : e / 2 ^ (lv - 1) ≤ (e + 2 ^ (lv - 1) - 1) / 2 ^ (lv - 1) := by
    apply Nat.div_le_div_right
    have : 0 < (2 : ℕ) ^ (lv - 1) := Nat.pos_pow_of_pos _ (by norm_num)
    omega
  omega

/-- Core halving inequality: doubling the level-`lv+1` block count
overshoots the level-`lv` block count by at most one, so every source
chunk index `si1 + 2*idx` reached by the worker is at most `n_x(lv)`. -/
lemma ceilDiv_half_le (F c : ℕ) (hc : 0 < c) :
    2 * ((F / 2 + c - 1) / c) ≤ (F + c - 1) / c + 1 := by
  obtain ⟨q, hq⟩ : ∃ q, F / 2 = q := ⟨_, rfl⟩
  rw [hq]
  rcases Nat.eq_zero_or_pos q with hq0 | hq0
  · subst hq0
    have h0 : (0 + c - 1) / c = 0 := Nat.div_eq_of_lt (by omega)
    rw [h0]
    simp
  · obtain ⟨hge, hlt⟩ := ceilDiv_spec q c hc hq0
    obtain ⟨a, ha⟩ : ∃ a, (q + c - 1) / c = a := ⟨_, rfl⟩
    rw [ha] at hge hlt ⊢
    have ha0 : 0 < a := by
      rcases Nat.eq_zero_or_pos a with h0 | h0
      · rw [h0, Nat.zero_mul] at hge; omega
      · exact h0
    have hsplit : a * c = (a - 1) * c + c := by
      rcases Nat.exists_eq_succ_of_ne_zero (Nat.pos_iff_ne_zero.mp ha0)
        with ⟨m, hm⟩
      rw [hm, Nat.succ_sub_one, Nat.succ_mul]
    have hFq : 2 * q ≤ F ∧ F ≤ 2 * q + 1 := by omega
    have hq1 : (a - 1) * c + 1 ≤ q := by omega
    rcases Nat.eq_zero_or_pos F with hF0 | hF0
    · omega
    · obtain ⟨hge2, hlt2⟩ := ceilDiv_spec F c hc hF0
      obtain ⟨b, hb⟩ : ∃ b, (F + c - 1) / c = b := ⟨_, rfl⟩
      rw [hb] at hge2 hlt2 ⊢
      by_contra hcon
      have hble : b ≤ 2 * (a - 1) := by omega
      have hmono : b * c ≤ 2 * (a - 1) * c := Nat.mul_le_mul_right c hble
      have heq : 2 * (a - 1) * c = 2 * ((a - 1) * c) := by ring
      omega

/-- Instance of `ceilDiv_half_le` for the worker: with `idx` below the
destination block count, every source chunk index `si1 + 2*idx`
(`si1 ≤ 1`) is at most the source block count `n_x(lv)`. -/
lemma srcIdx_le_nBlocks (e c lv idx si1 : ℕ) (hc : 0 < c) (hlv : 1 ≤ lv)
    (hsi : si1 < 2) (hidx : idx < nBlocks e c (lv + 1)) :
    si1 + idx * 2 ≤ nBlocks e c lv := by
  have hpow : (2 : ℕ) ^ (lv + 1 - 1) = 2 ^ (lv - 1) * 2 := by
    rw [Nat.add_sub_cancel, ← pow_succ]
    congr 1
    omega
  have hdd : e / 2 ^ (lv + 1 - 1) = e / 2 ^ (lv - 1) / 2 := by
    rw [hpow, ← Nat.div_div_eq_div_mul]
  have h := ceilDiv_half_le (e / 2 ^ (lv - 1)) c hc
  unfold nBlocks at *
  rw [hdd] at hidx
  omega

/-- Chunk bounds of any grid chunk: end within the level extent, length
at most `c`, start strictly below end. -/
lemma chunkEnd_bounds (e c lv i : ℕ) (hc : 0 < c) (he : 0 < e)
    (hi : i < nStarts e c lv) :
    chunkEnd e c lv i ≤ levelExtent e lv ∧
    chunkEnd e c lv i ≤ i * c + c ∧ i * c < chunkEnd e c lv i := by
  have hres : 0 < resolution lv := Nat.pos_pow_of_pos _ (by norm_num)
  have hle : 0 < levelExtent e lv := by
    have : resolution lv ≤ e + resolution lv - 1 := by omega
    exact Nat.div_pos this hres
  obtain ⟨hge, hlt⟩ := ceilDiv_spec (levelExtent e lv) c hc hle
  have hstart : i * c < levelExtent e lv :=
    (lt_ceilDiv_iff (levelExtent e lv) c i hc).mp hi
  unfold chunkEnd
  by_cases hlast : i + 1 = nStarts e c lv
  · rw [if_pos hlast]
    have hsucc : (i + 1) * c = i * c + c := by ring
    have : levelExtent e lv ≤ (i + 1) * c := by
      rw [hlast]
      unfold nStarts at *
      omega
    omega
  · rw [if_neg hlast]
    have hi1 : i + 1 < nStarts e c lv := by omega
    have : (i + 1) * c < levelExtent e lv :=
      (lt_ceilDiv_iff (levelExtent e lv) c (i + 1) hc).mp hi1
    have hsucc : (i + 1) * c = i * c + c := by ring
    omega

/-- Window membership in the placed slice `arr[off::2]`. -/
lemma dsLen_window (L off t : ℕ) : t < dsLen L off ↔ off + 2 * t < L := by
  unfold dsLen
  omega

/-- The crux per-axis equivalence: the worker reads local index `s` of
source chunk `j` (skipping `j = n_x(lv)`) exactly when the global
level-`lv` coordinate `j*c + s` falls inside the available data. -/
lemma window_iff_avail (e c lv j s : ℕ) (hc : 0 < c) (he : 0 < e)
    (hj : j ≤ nBlocks e c lv) (hs : s < c) :
    (j ≠ nBlocks e c lv ∧ s < chunkEnd e c lv j - chunkStart c j) ↔
      j * c + s < availExtent e c lv := by
  set ns := nBlocks e c lv with hns
  set nS := nStarts e c lv with hnS
  set E := levelExtent e lv with hE
  have hres : 0 < resolution lv := Nat.pos_pow_of_pos _ (by norm_num)
  have hle : 0 < E := by
    have : resolution lv ≤ e + resolution lv - 1 := by omega
    exact Nat.div_pos this hres
  obtain ⟨hge, hlt⟩ := ceilDiv_spec E c hc hle
  have hcle : ns ≤ nS := nBlocks_le_nStarts e c lv
  have hSn : nS = (E + c - 1) / c := rfl
  rw [← hSn] at hge hlt
  unfold availExtent
  rw [← hns, ← hE]
  by_cases hjn : j = ns
  · simp only [hjn, ne_eq, not_true_eq_false, false_and, false_iff, not_lt]
    have h1 : min (ns * c) E ≤ ns * c := Nat.min_le_left _ _
    omega
  · have hjlt : j < ns := by omega
    have hjS : j < nS := by omega
    obtain ⟨hcl1, hcl2, hcl3⟩ := chunkEnd_bounds e c lv j hc he hjS
    simp only [ne_eq, hjn, not_false_eq_true, true_and]
    unfold chunkStart
    by_cases hlast : j + 1 = nS
    · have hnsS : ns = nS := by omega
      have hEnd : chunkEnd e c lv j = E := by
        unfold chunkEnd
        rw [if_pos hlast]
      rw [hEnd]
      have hnc : ns * c = nS * c := by rw [hnsS]
      have hmin : min (ns * c) E = E := by
        rw [hnc]
        omega
      rw [hmin]
      omega
    · have hEnd : chunkEnd e c lv j = j * c + c := by
        unfold chunkEnd
        rw [if_neg hlast]
      rw [hEnd]
      have hji : j + 1 < nS := by omega
      have h2 : (j + 1) * c < E := (lt_ceilDiv_iff E c (j + 1) hc).mp hji
      have h3 : (j + 1) * c ≤ ns * c := Nat.mul_le_mul_right c (by omega)
      have h4 : (j + 1) * c = j * c + c := by ring
      have hmin : min (ns * c) E ≥ j * c + c := by omega
      omega

/-- Conditional rewriting of guarded summands. -/
lemma if_eq_if (p q : Prop) [Decidable p] [Decidable q] (a b : ℕ)
    (hpq : p ↔ q) (hab : p → a = b) :
    (if p then a else 0) = (if q then b else 0) := by
  by_cases hp : p
  · rw [if_pos hp, if_pos (hpq.mp hp), hab hp]
  · rw [if_neg hp, if_neg fun hq => hp (hpq.mpr hq)]

/-- Resolution of the per-axis guard: for a destination voxel `i` of a
worker-visited chunk `idx`, the guard of contribution `(si1, off)` holds
iff `si1` is the unique half determined by `i` (`0` for the low rows,
`1` for the high rows) and the level-`lv` coordinate `2*(idx*c + i) + off`
falls inside the available source data; and, when it holds, the global
source coordinate read is exactly `2*(idx*c + i) + off`. -/
lemma axisCond_resolve (e c h lv idx i si1 off : ℕ)
    (hc : c = 2 * h) (hh : 0 < h) (hlv : 1 ≤ lv) (he : 0 < e)
    (hidx : idx < nBlocks e c (lv + 1))
    (hi : i < chunkEnd e c (lv + 1) idx - chunkStart c idx)
    (hsi : si1 < 2) (hoff : off < 2) :
    (axisCond e c lv idx si1 off i ↔
      si1 = (if i < h then 0 else 1) ∧
        2 * (idx * c + i) + off < availExtent e c lv) ∧
    (axisCond e c lv idx si1 off i →
      chunkStart c (si1 + idx * 2) + axisSrc c si1 off i =
        2 * (idx * c + i) + off) := by
  have hc0 : 0 < c := by omega
  have hcd : c / 2 = h := by omega
  have hidxS : idx < nStarts e c (lv + 1) :=
    lt_of_lt_of_le hidx (nBlocks_le_nStarts e c (lv + 1))
  obtain ⟨d1, d2, d3⟩ := chunkEnd_bounds e c (lv + 1) idx hc0 he hidxS
  have i2h : i < 2 * h := by
    unfold chunkStart at hi
    omega
  have hjle : si1 + idx * 2 ≤ nBlocks e c lv :=
    srcIdx_le_nBlocks e c lv idx si1 hc0 hlv hsi hidx
  have hmul : idx * 2 * c = 2 * (idx * c) := by ring
  have hexp : (1 + idx * 2) * c = c + idx * 2 * c := by ring
  unfold axisCond axisSrc chunkStart
  rw [hcd]
  interval_cases si1
  · -- si1 = 0: the destination rows [0, h)
    simp only [Nat.zero_add, Nat.zero_mul, Nat.sub_zero] at hjle ⊢
    by_cases hih : i < h
    · -- unique half is 0 and the guard reduces to availability
      have hs : off + 2 * i < c := by omega
      have hW := window_iff_avail e c lv (idx * 2) (off + 2 * i)
        hc0 he (by omega) hs
      unfold chunkStart at hW
      constructor
      · constructor
        · rintro ⟨hskip, -, hwin⟩
          rw [dsLen_window] at hwin
          refine ⟨by rw [if_pos hih], ?_⟩
          have := hW.mp ⟨hskip, hwin⟩
          omega
        · rintro ⟨-, havail⟩
          have hload : idx * 2 * c + (off + 2 * i) <
              availExtent e c lv := by omega
          obtain ⟨hskip, hwin⟩ := hW.mpr hload
          exact ⟨hskip, by omega, by rw [dsLen_window]; exact hwin⟩
      · rintro ⟨-, -, -⟩
        omega
    · -- cond is false: window of half 0 is contained in [0, h)
      constructor
      · constructor
        · rintro ⟨hskip, -, hwin⟩
          exfalso
          have hj0 : idx * 2 < nBlocks e c lv := by omega
          have hj0S : idx * 2 < nStarts e c lv :=
            lt_of_lt_of_le hj0 (nBlocks_le_nStarts e c lv)
          obtain ⟨s1, s2, s3⟩ := chunkEnd_bounds e c lv (idx * 2) hc0
            he hj0S
          unfold dsLen at hwin
          omega
        · rintro ⟨hS, -⟩
          rw [if_neg hih] at hS
          omega
      · rintro ⟨-, -, -⟩
        omega
  · -- si1 = 1: the destination rows [h, 2h)
    simp only [Nat.one_mul] at hjle ⊢
    by_cases hih : i < h
    · constructor
      · constructor
        · rintro ⟨-, hwin, -⟩
          omega
        · rintro ⟨hS, -⟩
          rw [if_pos hih] at hS
          omega
      · rintro ⟨-, hwin, -⟩
        omega
    · have hs : off + 2 * (i - h) < c := by omega
      have hW := window_iff_avail e c lv (1 + idx * 2) (off + 2 * (i - h))
        hc0 he (by omega) hs
      unfold chunkStart at hW
      constructor
      · constructor
        · rintro ⟨hskip, hrow, hwin⟩
          refine ⟨by rw [if_neg hih], ?_⟩
          have hwin2 : off + 2 * (i - h) <
              chunkEnd e c lv (1 + idx * 2) - (1 + idx * 2) * c :=
            (dsLen_window (chunkEnd e c lv (1 + idx * 2) -
              (1 + idx * 2) * c) off (i - h)).mp (by omega)
          have := hW.mp ⟨hskip, hwin2⟩
          omega
        · rintro ⟨-, havail⟩
          have hload : (1 + idx * 2) * c + (off + 2 * (i - h)) <
              availExtent e c lv := by omega
          obtain ⟨hskip, hwin⟩ := hW.mpr hload
          have hwin2 : i - h < dsLen (chunkEnd e c lv (1 + idx * 2) -
              (1 + idx * 2) * c) off :=
            (dsLen_window _ off (i - h)).mpr hwin
          exact ⟨hskip, by omega, by omega⟩
      · rintro ⟨-, hrow, -⟩
        omega

/-- Collapsing one axis of the accumulation: summing a guarded
contribution over the two source-chunk halves and two sub-lattice offsets
equals summing over the offsets whose source coordinate is available. -/
lemma axis_collapse_sum (F : ℕ → ℕ) (e c h lv idx i : ℕ)
    (hc : c = 2 * h) (hh : 0 < h) (hlv : 1 ≤ lv) (he : 0 < e)
    (hidx : idx < nBlocks e c (lv + 1))
    (hi : i < chunkEnd e c (lv + 1) idx - chunkStart c idx) :
    (∑ si1 ∈ Finset.range 2, ∑ off ∈ Finset.range 2,
        if axisCond e c lv idx si1 off i then
          F (chunkStart c (si1 + idx * 2) + axisSrc c si1 off i) else 0) =
      ∑ off ∈ Finset.range 2,
        if 2 * (idx * c + i) + off < availExtent e c lv then
          F (2 * (idx * c + i) + off) else 0 := by
  have hres := fun si1 off (hsi : si1 < 2) (hoff : off < 2) =>
    axisCond_resolve e c h lv idx i si1 off hc hh hlv he hidx hi hsi hoff
  rw [Finset.sum_range_succ, Finset.sum_range_one]
  by_cases hih : i < h
  · have hvan : (∑ off ∈ Finset.range 2,
        if axisCond e c lv idx 1 off i then
          F (chunkStart c (1 + idx * 2) + axisSrc c 1 off i) else 0) = 0 := by
      apply Finset.sum_eq_zero
      intro off hoff
      apply if_neg
      intro hcond
      have := ((hres 1 off (by norm_num)
        (Finset.mem_range.mp hoff)).1).mp hcond
      rw [if_pos hih] at this
      omega
    have hmatch : (∑ off ∈ Finset.range 2,
        if axisCond e c lv idx 0 off i then
          F (chunkStart c (0 + idx * 2) + axisSrc c 0 off i) else 0) =
        ∑ off ∈ Finset.range 2,
          if 2 * (idx * c + i) + off < availExtent e c lv then
            F (2 * (idx * c + i) + off) else 0 := by
      apply Finset.sum_congr rfl
      intro off hoff
      have hr := hres 0 off (by norm_num) (Finset.mem_range.mp hoff)
      apply if_eq_if _ _ _ _ _ fun hcond => congrArg F (hr.2 hcond)
      rw [hr.1, if_pos hih]
      simp
    rw [hvan, hmatch, add_zero]
  · have hvan : (∑ off ∈ Finset.range 2,
        if axisCond e c lv idx 0 off i then
          F (chunkStart c (0 + idx * 2) + axisSrc c 0 off i) else 0) = 0 := by
      apply Finset.sum_eq_zero
      intro off hoff
      apply if_neg
      intro hcond
      have := ((hres 0 off (by norm_num)
        (Finset.mem_range.mp hoff)).1).mp hcond
      rw [if_neg hih] at this
      omega
    have hmatch : (∑ off ∈ Finset.range 2,
        if axisCond e c lv idx 1 off i then
          F (chunkStart c (1 + idx * 2) + axisSrc c 1 off i) else 0) =
        ∑ off ∈ Finset.range 2,
          if 2 * (idx * c + i) + off < availExtent e c lv then
            F (2 * (idx * c + i) + off) else 0 := by
      apply Finset.sum_congr rfl
      intro off hoff
      have hr := hres 1 off (by norm_num) (Finset.mem_range.mp hoff)
      apply if_eq_if _ _ _ _ _ fun hcond => congrArg F (hr.2 hcond)
      rw [hr.1, if_neg hih]
      simp
    rw [hvan, hmatch, zero_add]

/-- `Finset.sup` analogue of `axis_collapse_sum`, for the
`np.maximum`-accumulating segmentation path. -/
lemma axis_collapse_sup (F : ℕ → ℕ) (e c h lv idx i : ℕ)
    (hc : c = 2 * h) (hh : 0 < h) (hlv : 1 ≤ lv) (he : 0 < e)
    (hidx : idx < nBlocks e c (lv + 1))
    (hi : i < chunkEnd e c (lv + 1) idx - chunkStart c idx) :
    (Finset.sup (Finset.range 2) fun si1 =>
        Finset.sup (Finset.range 2) fun off =>
        if axisCond e c lv idx si1 off i then
          F (chunkStart c (si1 + idx * 2) + axisSrc c si1 off i) else 0) =
      Finset.sup (Finset.range 2) fun off =>
        if 2 * (idx * c + i) + off < availExtent e c lv then
          F (2 * (idx * c + i) + off) else 0 := by
  have hres := fun si1 off (hsi : si1 < 2) (hoff : off < 2) =>
    axisCond_resolve e c h lv idx i si1 off hc hh hlv he hidx hi hsi hoff
  apply le_antisymm
  · apply Finset.sup_le
    intro si1 hsi
    apply Finset.sup_le
    intro off hoff
    by_cases hcond : axisCond e c lv idx si1 off i
    · rw [if_pos hcond]
      have hr := hres si1 off (Finset.mem_range.mp hsi)
        (Finset.mem_range.mp hoff)
      have hvalid := (hr.1.mp hcond).2
      have hco := hr.2 hcond
      rw [hco]
      calc F (2 * (idx * c + i) + off)
          = if 2 * (idx * c + i) + off < availExtent e c lv then
              F (2 * (idx * c + i) + off) else 0 := by rw [if_pos hvalid]
        _ ≤ _ := Finset.le_sup
            (f := fun o => if 2 * (idx * c + i) + o < availExtent e c lv
              then F (2 * (idx * c + i) + o) else 0) hoff
    · rw [if_neg hcond]
      exact Nat.zero_le _
  · apply Finset.sup_le
    intro off hoff
    by_cases hvalid : 2 * (idx * c + i) + off < availExtent e c lv
    · rw [if_pos hvalid]
      have hS : (if i < h then 0 else 1) < 2 := by
        by_cases hih : i < h <;> simp [hih]
      have hr := hres (if i < h then 0 else 1) off hS
        (Finset.mem_range.mp hoff)
      have hcond := hr.1.mpr ⟨rfl, hvalid⟩
      have hco := hr.2 hcond
      calc F (2 * (idx * c + i) + off)
          = if axisCond e c lv idx (if i < h then 0 else 1) off i then
              F (chunkStart c ((if i < h then 0 else 1) + idx * 2) +
                axisSrc c (if i < h then 0 else 1) off i) else 0 := by
            rw [if_pos hcond, hco]
        _ ≤ Finset.sup (Finset.range 2) fun o =>
              if axisCond e c lv idx (if i < h then 0 else 1) o i then
                F (chunkStart c ((if i < h then 0 else 1) + idx * 2) +
                  axisSrc c (if i < h then 0 else 1) o i) else 0 :=
            Finset.le_sup
              (f := fun o => if axisCond e c lv idx
                    (if i < h then 0 else 1) o i then
                  F (chunkStart c ((if i < h then 0 else 1) + idx * 2) +
                    axisSrc c (if i < h then 0 else 1) o i) else 0) hoff
        _ ≤ _ := Finset.le_sup
            (f := fun si1 => Finset.sup (Finset.range 2) fun o =>
              if axisCond e c lv idx si1 o i then
                F (chunkStart c (si1 + idx * 2) + axisSrc c si1 o i) else 0)
            (Finset.mem_range.mpr hS)
    · rw [if_neg hvalid]
      exact Nat.zero_le _

/-- Pulling a guard out of a sum. -/
lemma if_sum_comm (P : Prop) [Decidable P] (s : Finset ℕ) (f : ℕ → ℕ) :
    (if P then ∑ x ∈ s, f x else 0) = ∑ x ∈ s, if P then f x else 0 := by
  by_cases hP : P
  · simp [hP]
  · simp [hP]

/-- Currying a conjunction guard. -/
lemma ite_and_assoc (p q : Prop) [Decidable p] [Decidable q] (a : ℕ) :
    (if p ∧ q then a else 0) = if p then (if q then a else 0) else 0 := by
  by_cases hp : p <;> by_cases hq : q <;> simp [hp, hq]

/-- Full three-axis collapse of the worker's accumulation: the nested sum
over source-chunk halves and sub-lattice offsets of any per-voxel
function of the three global source coordinates equals the nested sum
over the valid offsets of that function at coordinates `2*g + off`. -/
lemma triple_collapse_sum (G : ℕ → ℕ → ℕ → ℕ)
    (ex ey ez cx cy cz hx hy hz lv : ℕ)
    (xidx yidx zidx ix iy iz : ℕ)
    (hcx : cx = 2 * hx) (hhx : 0 < hx)
    (hcy : cy = 2 * hy) (hhy : 0 < hy)
    (hcz : cz = 2 * hz) (hhz : 0 < hz)
    (hlv : 1 ≤ lv) (hex : 0 < ex) (hey : 0 < ey) (hez : 0 < ez)
    (hxi : xidx < nBlocks ex cx (lv + 1))
    (hyi : yidx < nBlocks ey cy (lv + 1))
    (hzi : zidx < nBlocks ez cz (lv + 1))
    (hix : ix < chunkEnd ex cx (lv + 1) xidx - chunkStart cx xidx)
    (hiy : iy < chunkEnd ey cy (lv + 1) yidx - chunkStart cy yidx)
    (hiz : iz < chunkEnd ez cz (lv + 1) zidx - chunkStart cz zidx) :
    (∑ xsi1 ∈ Finset.range 2, ∑ offx ∈ Finset.range 2,
      ∑ ysi1 ∈ Finset.range 2, ∑ offy ∈ Finset.range 2,
      ∑ zsi1 ∈ Finset.range 2, ∑ offz ∈ Finset.range 2,
      if axisCond ex cx lv xidx xsi1 offx ix ∧
         axisCond ey cy lv yidx ysi1 offy iy ∧
         axisCond ez cz lv zidx zsi1 offz iz then
        G (chunkStart cz (zsi1 + zidx * 2) + axisSrc cz zsi1 offz iz)
          (chunkStart cy (ysi1 + yidx * 2) + axisSrc cy ysi1 offy iy)
          (chunkStart cx (xsi1 + xidx * 2) + axisSrc cx xsi1 offx ix)
      else 0) =
    ∑ offx ∈ Finset.range 2,
      (if 2 * (xidx * cx + ix) + offx < availExtent ex cx lv then
        ∑ offy ∈ Finset.range 2,
          (if 2 * (yidx * cy + iy) + offy < availExtent ey cy lv then
            ∑ offz ∈ Finset.range 2,
              (if 2 * (zidx * cz + iz) + offz < availExtent ez cz lv then
                G (2 * (zidx * cz + iz) + offz) (2 * (yidx * cy + iy) + offy)
                  (2 * (xidx * cx + ix) + offx)
              else 0)
          else 0)
      else 0) := by
  have hzcol : ∀ xsi1 offx ysi1 offy,
      (∑ zsi1 ∈ Finset.range 2, ∑ offz ∈ Finset.range 2,
        if axisCond ex cx lv xidx xsi1 offx ix ∧
           axisCond ey cy lv yidx ysi1 offy iy ∧
           axisCond ez cz lv zidx zsi1 offz iz then
          G (chunkStart cz (zsi1 + zidx * 2) + axisSrc cz zsi1 offz iz)
            (chunkStart cy (ysi1 + yidx * 2) + axisSrc cy ysi1 offy iy)
            (chunkStart cx (xsi1 + xidx * 2) + axisSrc cx xsi1 offx ix)
        else 0) =
      if axisCond ex cx lv xidx xsi1 offx ix ∧
         axisCond ey cy lv yidx ysi1 offy iy then
        ∑ offz ∈ Finset.range 2,
          (if 2 * (zidx * cz + iz) + offz < availExtent ez cz lv then
            G (2 * (zidx * cz + iz) + offz)
              (chunkStart cy (ysi1 + yidx * 2) + axisSrc cy ysi1 offy iy)
              (chunkStart cx (xsi1 + xidx * 2) + axisSrc cx xsi1 offx ix)
          else 0)
      else 0 := by
    intro xsi1 offx ysi1 offy
    by_cases hxy : axisCond ex cx lv xidx xsi1 offx ix ∧
        axisCond ey cy lv yidx ysi1 offy iy
    · rw [if_pos hxy]
      have hpt : ∀ zsi1 offz,
          (if axisCond ex cx lv xidx xsi1 offx ix ∧
              axisCond ey cy lv yidx ysi1 offy iy ∧
              axisCond ez cz lv zidx zsi1 offz iz then
            G (chunkStart cz (zsi1 + zidx * 2) + axisSrc cz zsi1 offz iz)
              (chunkStart cy (ysi1 + yidx * 2) + axisSrc cy ysi1 offy iy)
              (chunkStart cx (xsi1 + xidx * 2) + axisSrc cx xsi1 offx ix)
          else 0) =
          (if axisCond ez cz lv zidx zsi1 offz iz then
            G (chunkStart cz (zsi1 + zidx * 2) + axisSrc cz zsi1 offz iz)
              (chunkStart cy (ysi1 + yidx * 2) + axisSrc cy ysi1 offy iy)
              (chunkStart cx (xsi1 + xidx * 2) + axisSrc cx xsi1 offx ix)
          else 0) := by
        intro zsi1 offz
        by_cases hcz2 : axisCond ez cz lv zidx zsi1 offz iz
        · rw [if_pos hcz2, if_pos ⟨hxy.1, hxy.2, hcz2⟩]
        · rw [if_neg hcz2, if_neg fun hall => hcz2 hall.2.2]
      rw [Finset.sum_congr rfl fun zsi1 _ =>
        Finset.sum_congr rfl fun offz _ => hpt zsi1 offz]
      exact axis_collapse_sum
        (fun zc => G zc
          (chunkStart cy (ysi1 + yidx * 2) + axisSrc cy ysi1 offy iy)
          (chunkStart cx (xsi1 + xidx * 2) + axisSrc cx xsi1 offx ix))
        ez cz hz lv zidx iz hcz hhz hlv hez hzi hiz
    · rw [if_neg hxy]
      apply Finset.sum_eq_zero
      intro zsi1 _
      apply Finset.sum_eq_zero
      intro offz _
      exact if_neg fun hall => hxy ⟨hall.1, hall.2.1⟩
  have hycol : ∀ xsi1 offx,
      (∑ ysi1 ∈ Finset.range 2, ∑ offy ∈ Finset.range 2,
        if axisCond ex cx lv xidx xsi1 offx ix ∧
           axisCond ey cy lv yidx ysi1 offy iy then
          ∑ offz ∈ Finset.range 2,
            (if 2 * (zidx * cz + iz) + offz < availExtent ez cz lv then
              G (2 * (zidx * cz + iz) + offz)
                (chunkStart cy (ysi1 + yidx * 2) + axisSrc cy ysi1 offy iy)
                (chunkStart cx (xsi1 + xidx * 2) + axisSrc cx xsi1 offx ix)
            else 0)
        else 0) =
      if axisCond ex cx lv xidx xsi1 offx ix then
        ∑ offy ∈ Finset.range 2,
          (if 2 * (yidx * cy + iy) + offy < availExtent ey cy lv then
            ∑ offz ∈ Finset.range 2,
              (if 2 * (zidx * cz + iz) + offz < availExtent ez cz lv then
                G (2 * (zidx * cz + iz) + offz) (2 * (yidx * cy + iy) + offy)
                  (chunkStart cx (xsi1 + xidx * 2) + axisSrc cx xsi1 offx ix)
              else 0)
          else 0)
      else 0 := by
    intro xsi1 offx
    by_cases hcx2 : axisCond ex cx lv xidx xsi1 offx ix
    · rw [if_pos hcx2]
      have hpt : ∀ ysi1 offy,
          (if axisCond ex cx lv xidx xsi1 offx ix ∧
              axisCond ey cy lv yidx ysi1 offy iy then
            ∑ offz ∈ Finset.range 2,
              (if 2 * (zidx * cz + iz) + offz < availExtent ez cz lv then
                G (2 * (zidx * cz + iz) + offz)
                  (chunkStart cy (ysi1 + yidx * 2) + axisSrc cy ysi1 offy iy)
                  (chunkStart cx (xsi1 + xidx * 2) + axisSrc cx xsi1 offx ix)
              else 0)
          else 0) =
          (if axisCond ey cy lv yidx ysi1 offy iy then
            ∑ offz ∈ Finset.range 2,
              (if 2 * (zidx * cz + iz) + offz < availExtent ez cz lv then
                G (2 * (zidx * cz + iz) + offz)
                  (chunkStart cy (ysi1 + yidx * 2) + axisSrc cy ysi1 offy iy)
                  (chunkStart cx (xsi1 + xidx * 2) + axisSrc cx xsi1 offx ix)
              else 0)
          else 0) := by
        intro ysi1 offy
        by_cases hcy2 : axisCond ey cy lv yidx ysi1 offy iy
        · rw [if_pos hcy2, if_pos ⟨hcx2, hcy2⟩]
        · rw [if_neg hcy2, if_neg fun hall => hcy2 hall.2]
      rw [Finset.sum_congr rfl fun ysi1 _ =>
        Finset.sum_congr rfl fun offy _ => hpt ysi1 offy]
      exact axis_collapse_sum
        (fun yc => ∑ offz ∈ Finset.range 2,
          (if 2 * (zidx * cz + iz) + offz < availExtent ez cz lv then
            G (2 * (zidx * cz + iz) + offz) yc
              (chunkStart cx (xsi1 + xidx * 2) + axisSrc cx xsi1 offx ix)
          else 0))
        ey cy hy lv yidx iy hcy hhy hlv hey hyi hiy
    · rw [if_neg hcx2]
      apply Finset.sum_eq_zero
      intro ysi1 _
      apply Finset.sum_eq_zero
      intro offy _
      exact if_neg fun hall => hcx2 hall.1
  calc (∑ xsi1 ∈ Finset.range 2, ∑ offx ∈ Finset.range 2,
      ∑ ysi1 ∈ Finset.range 2, ∑ offy ∈ Finset.range 2,
      ∑ zsi1 ∈ Finset.range 2, ∑ offz ∈ Finset.range 2,
      if axisCond ex cx lv xidx xsi1 offx ix ∧
         axisCond ey cy lv yidx ysi1 offy iy ∧
         axisCond ez cz lv zidx zsi1 offz iz then
        G (chunkStart cz (zsi1 + zidx * 2) + axisSrc cz zsi1 offz iz)
          (chunkStart cy (ysi1 + yidx * 2) + axisSrc cy ysi1 offy iy)
          (chunkStart cx (xsi1 + xidx * 2) + axisSrc cx xsi1 offx ix)
      else 0)
      = ∑ xsi1 ∈ Finset.range 2, ∑ offx ∈ Finset.range 2,
          ∑ ysi1 ∈ Finset.range 2, ∑ offy ∈ Finset.range 2,
          (if axisCond ex cx lv xidx xsi1 offx ix ∧
              axisCond ey cy lv yidx ysi1 offy iy then
            ∑ offz ∈ Finset.range 2,
              (if 2 * (zidx * cz + iz) + offz < availExtent ez cz lv then
                G (2 * (zidx * cz + iz) + offz)
                  (chunkStart cy (ysi1 + yidx * 2) + axisSrc cy ysi1 offy iy)
                  (chunkStart cx (xsi1 + xidx * 2) + axisSrc cx xsi1 offx ix)
              else 0)
          else 0) := by
        exact Finset.sum_congr rfl fun xsi1 _ =>
          Finset.sum_congr rfl fun offx _ =>
          Finset.sum_congr rfl fun ysi1 _ =>
          Finset.sum_congr rfl fun offy _ => hzcol xsi1 offx ysi1 offy
    _ = ∑ xsi1 ∈ Finset.range 2, ∑ offx ∈ Finset.range 2,
          (if axisCond ex cx lv xidx xsi1 offx ix then
            ∑ offy ∈ Finset.range 2,
              (if 2 * (yidx * cy + iy) + offy < availExtent ey cy lv then
                ∑ offz ∈ Finset.range 2,
                  (if 2 * (zidx * cz + iz) + offz < availExtent ez cz lv then
                    G (2 * (zidx * cz + iz) + offz)
                      (2 * (yidx * cy + iy) + offy)
                      (chunkStart cx (xsi1 + xidx * 2) + axisSrc cx xsi1 offx ix)
                  else 0)
              else 0)
          else 0) := by
        exact Finset.sum_congr rfl fun xsi1 _ =>
          Finset.sum_congr rfl fun offx _ => hycol xsi1 offx
    _ = _ := by
        exact axis_collapse_sum
          (fun xc => ∑ offy ∈ Finset.range 2,
            (if 2 * (yidx * cy + iy) + offy < availExtent ey cy lv then
              ∑ offz ∈ Finset.range 2,
                (if 2 * (zidx * cz + iz) + offz < availExtent ez cz lv then
                  G (2 * (zidx * cz + iz) + offz) (2 * (yidx * cy + iy) + offy)
                    xc
                else 0)
            else 0))
          ex cx hx lv xidx ix hcx hhx hlv hex hxi hix

/-- Under its per-axis guard, the local index read from the source chunk
is within the chunk's stored shape. -/
lemma axisCond_srcLt (e c lv idx si1 off i : ℕ)
    (hcond : axisCond e c lv idx si1 off i) :
    axisSrc c si1 off i <
      chunkEnd e c lv (si1 + idx * 2) - chunkStart c (si1 + idx * 2) := by
  obtain ⟨-, hrow, hwin⟩ := hcond
  unfold axisSrc
  exact (dsLen_window _ off (i - si1 * (c / 2))).mp (by omega)

/-- Flattening a sum over the valid-neighborhood set into nested
per-offset sums with independent availability guards. -/
lemma validNbrs_sum_eq (f : ℕ × ℕ × ℕ → ℕ)
    (ex ey ez cx cy cz lv gx gy gz : ℕ) :
    (∑ o ∈ validNbrs ex ey ez cx cy cz (lv + 1) gx gy gz, f o) =
    ∑ ox ∈ Finset.range 2,
      (if 2 * gx + ox < availExtent ex cx lv then
        ∑ oy ∈ Finset.range 2,
          (if 2 * gy + oy < availExtent ey cy lv then
            ∑ oz ∈ Finset.range 2,
              (if 2 * gz + oz < availExtent ez cz lv then f (ox, oy, oz)
               else 0)
          else 0)
      else 0) := by
  unfold validNbrs
  simp only [Nat.add_sub_cancel]
  rw [Finset.sum_filter, Finset.sum_product]
  refine Finset.sum_congr rfl fun ox _ => ?_
  rw [Finset.sum_product]
  by_cases hox : 2 * gx + ox < availExtent ex cx lv
  · rw [if_pos hox]
    refine Finset.sum_congr rfl fun oy _ => ?_
    by_cases hoy : 2 * gy + oy < availExtent ey cy lv
    · rw [if_pos hoy]
      refine Finset.sum_congr rfl fun oz _ => ?_
      by_cases hoz : 2 * gz + oz < availExtent ez cz lv
      · rw [if_pos hoz, if_pos ⟨hox, hoy, hoz⟩]
      · rw [if_neg hoz, if_neg fun hall => hoz hall.2.2]
    · rw [if_neg hoy]
      apply Finset.sum_eq_zero
      intro oz _
      exact if_neg fun hall => hoy hall.2.1
  · rw [if_neg hox]
    apply Finset.sum_eq_zero
    intro oy _
    apply Finset.sum_eq_zero
    intro oz _
    exact if_neg fun hall => hox hall.1

/-- C2: for every image-type volume, level `n ≥ 2` (here `n = lv + 1`
with `lv ≥ 1`), destination chunk visited by the build loop and
destination voxel of that chunk, the value written by
`Stack.write_one_level_n` / `BlockfsStack.write_one_level_n` equals the
integer floor division of the sum of the valid contributing level-`n-1`
voxels (the up-to-8 sub-lattice voxels `2*g + off` of the voxel's 2×2×2
neighborhood that fall inside the available source data) by the count of
those valid contributors; offsets outside the source data contribute
neither value nor count.  `src` is the level-`n-1` volume, indexed
`(z, y, x)`; chunk sizes must be even and positive (always 64 in this
system). -/
theorem writeOneLevelN_image_avg (src : ℕ → ℕ → ℕ → ℕ)
    (ex ey ez cx cy cz level xidx yidx zidx iz iy ix : ℕ)
    (hlevel : 2 ≤ level)
    (hex : 0 < ex) (hey : 0 < ey) (hez : 0 < ez)
    (hcx2 : cx % 2 = 0) (hcx0 : 0 < cx)
    (hcy2 : cy % 2 = 0) (hcy0 : 0 < cy)
    (hcz2 : cz % 2 = 0) (hcz0 : 0 < cz)
    (hxi : xidx < nBlocks ex cx level) (hyi : yidx < nBlocks ey cy level)
    (hzi : zidx < nBlocks ez cz level)
    (hix : ix < chunkEnd ex cx level xidx - chunkStart cx xidx)
    (hiy : iy < chunkEnd ey cy level yidx - chunkStart cy yidx)
    (hiz : iz < chunkEnd ez cz level zidx - chunkStart cz zidx) :
    writeOneLevelN src ex ey ez cx cy cz level xidx yidx zidx iz iy ix =
      (∑ o ∈ validNbrs ex ey ez cx cy cz level (xidx * cx + ix)
          (yidx * cy + iy) (zidx * cz + iz),
        src (2 * (zidx * cz + iz) + o.2.2) (2 * (yidx * cy + iy) + o.2.1)
          (2 * (xidx * cx + ix) + o.1)) /
      (validNbrs ex ey ez cx cy cz level (xidx * cx + ix)
          (yidx * cy + iy) (zidx * cz + iz)).card := by
  obtain ⟨lv, rfl⟩ : ∃ lv, level = lv + 1 := ⟨level - 1, by omega⟩
  have hlv : 1 ≤ lv := by omega
  have hcx : cx = 2 * (cx / 2) := by omega
  have hhx : 0 < cx / 2 := by omega
  have hcy : cy = 2 * (cy / 2) := by omega
  have hhy : 0 < cy / 2 := by omega
  have hcz : cz = 2 * (cz / 2) := by omega
  have hhz : 0 < cz / 2 := by omega
  -- reduce the stored-chunk reads to the source volume under the guards
  have hread : ∀ xsi1 offx ysi1 offy zsi1 offz,
      (if axisCond ex cx lv xidx xsi1 offx ix ∧
          axisCond ey cy lv yidx ysi1 offy iy ∧
          axisCond ez cz lv zidx zsi1 offz iz then
        srcBlock src ex ey ez cx cy cz lv (xsi1 + xidx * 2)
          (ysi1 + yidx * 2) (zsi1 + zidx * 2) (axisSrc cz zsi1 offz iz)
          (axisSrc cy ysi1 offy iy) (axisSrc cx xsi1 offx ix)
      else 0) =
      (if axisCond ex cx lv xidx xsi1 offx ix ∧
          axisCond ey cy lv yidx ysi1 offy iy ∧
          axisCond ez cz lv zidx zsi1 offz iz then
        src (chunkStart cz (zsi1 + zidx * 2) + axisSrc cz zsi1 offz iz)
          (chunkStart cy (ysi1 + yidx * 2) + axisSrc cy ysi1 offy iy)
          (chunkStart cx (xsi1 + xidx * 2) + axisSrc cx xsi1 offx ix)
      else 0) := by
    intro xsi1 offx ysi1 offy zsi1 offz
    apply if_eq_if _ _ _ _ Iff.rfl
    rintro ⟨hcx', hcy', hcz'⟩
    unfold srcBlock
    rw [if_pos ⟨axisCond_srcLt ez cz lv zidx zsi1 offz iz hcz',
      axisCond_srcLt ey cy lv yidx ysi1 offy iy hcy',
      axisCond_srcLt ex cx lv xidx xsi1 offx ix hcx'⟩]
  have hblock := triple_collapse_sum src ex ey ez cx cy cz (cx / 2)
    (cy / 2) (cz / 2) lv xidx yidx zidx ix iy iz hcx hhx hcy hhy hcz hhz
    hlv hex hey hez hxi hyi hzi hix hiy hiz
  have hhits : (∑ xsi1 ∈ Finset.range 2, ∑ offx ∈ Finset.range 2,
      ∑ ysi1 ∈ Finset.range 2, ∑ offy ∈ Finset.range 2,
      ∑ zsi1 ∈ Finset.range 2, ∑ offz ∈ Finset.range 2,
      if axisCond ex cx lv xidx xsi1 offx ix ∧
         axisCond ey cy lv yidx ysi1 offy iy ∧
         axisCond ez cz lv zidx zsi1 offz iz then 1 else 0) =
      ∑ offx ∈ Finset.range 2,
        (if 2 * (xidx * cx + ix) + offx < availExtent ex cx lv then
          ∑ offy ∈ Finset.range 2,
            (if 2 * (yidx * cy + iy) + offy < availExtent ey cy lv then
              ∑ offz ∈ Finset.range 2,
                (if 2 * (zidx * cz + iz) + offz < availExtent ez cz lv then
                  1 else 0)
            else 0)
        else 0) :=
    triple_collapse_sum (fun _ _ _ => 1) ex ey ez cx cy cz
      (cx / 2) (cy / 2) (cz / 2) lv xidx yidx zidx ix iy iz hcx hhx hcy hhy
      hcz hhz hlv hex hey hez hxi hyi hzi hix hiy hiz
  have hsum : (∑ o ∈ validNbrs ex ey ez cx cy cz (lv + 1) (xidx * cx + ix)
      (yidx * cy + iy) (zidx * cz + iz),
      src (2 * (zidx * cz + iz) + o.2.2) (2 * (yidx * cy + iy) + o.2.1)
        (2 * (xidx * cx + ix) + o.1)) =
      ∑ offx ∈ Finset.range 2,
        (if 2 * (xidx * cx + ix) + offx < availExtent ex cx lv then
          ∑ offy ∈ Finset.range 2,
            (if 2 * (yidx * cy + iy) + offy < availExtent ey cy lv then
              ∑ offz ∈ Finset.range 2,
                (if 2 * (zidx * cz + iz) + offz < availExtent ez cz lv then
                  src (2 * (zidx * cz + iz) + offz)
                    (2 * (yidx * cy + iy) + offy) (2 * (xidx * cx + ix) + offx)
                else 0)
            else 0)
        else 0) :=
    validNbrs_sum_eq
      (fun o => src (2 * (zidx * cz + iz) + o.2.2)
        (2 * (yidx * cy + iy) + o.2.1) (2 * (xidx * cx + ix) + o.1))
      ex ey ez cx cy cz lv (xidx * cx + ix) (yidx * cy + iy)
      (zidx * cz + iz)
  have hK : (validNbrs ex ey ez cx cy cz (lv + 1) (xidx * cx + ix)
      (yidx * cy + iy) (zidx * cz + iz)).card =
      ∑ offx ∈ Finset.range 2,
        (if 2 * (xidx * cx + ix) + offx < availExtent ex cx lv then
          ∑ offy ∈ Finset.range 2,
            (if 2 * (yidx * cy + iy) + offy < availExtent ey cy lv then
              ∑ offz ∈ Finset.range 2,
                (if 2 * (zidx * cz + iz) + offz < availExtent ez cz lv then
                  1 else 0)
            else 0)
        else 0) :=
    (Finset.card_eq_sum_ones _).trans
      (validNbrs_sum_eq (fun _ => 1) ex ey ez cx cy cz lv (xidx * cx + ix)
        (yidx * cy + iy) (zidx * cz + iz))
  unfold writeOneLevelN
  simp only [Nat.add_sub_cancel]
  rw [Finset.sum_congr rfl fun xsi1 _ => Finset.sum_congr rfl fun offx _ =>
    Finset.sum_congr rfl fun ysi1 _ => Finset.sum_congr rfl fun offy _ =>
    Finset.sum_congr rfl fun zsi1 _ => Finset.sum_congr rfl fun offz _ =>
    hread xsi1 offx ysi1 offy zsi1 offz]
  rw [hblock, hhits, ← hsum, ← hK]
  rcases Nat.eq_zero_or_pos (validNbrs ex ey ez cx cy cz (lv + 1)
      (xidx * cx + ix) (yidx * cy + iy) (zidx * cz + iz)).card with h0 | h0
  · rw [h0, if_neg (by omega), Finset.card_eq_zero.mp h0]
    simp
  · rw [if_pos h0]

/-- Pulling a guard out of a `Finset.sup` over `ℕ`. -/
lemma if_sup_comm (P : Prop) [Decidable P] (s : Finset ℕ) (f : ℕ → ℕ) :
    (if P then s.sup f else 0) = s.sup fun x => if P then f x else 0 := by
  by_cases hP : P
  · simp [hP]
  · rw [if_neg hP]
    symm
    apply Nat.le_antisymm _ (Nat.zero_le _)
    apply Finset.sup_le
    intro b _
    rw [if_neg hP]

/-- A `Finset.sup` over a filtered set as a guarded sup over the base. -/
lemma sup_filter_eq {β : Type} (s : Finset β) (p : β → Prop)
    [DecidablePred p] (f : β → ℕ) :
    (s.filter p).sup f = s.sup fun x => if p x then f x else 0 := by
  apply le_antisymm
  · apply Finset.sup_le
    intro b hb
    obtain ⟨hbs, hpb⟩ := Finset.mem_filter.mp hb
    calc f b = if p b then f b else 0 := by rw [if_pos hpb]
      _ ≤ _ := Finset.le_sup (f := fun x => if p x then f x else 0) hbs
  · apply Finset.sup_le
    intro b hb
    by_cases hpb : p b
    · rw [if_pos hpb]
      exact Finset.le_sup (Finset.mem_filter.mpr ⟨hb, hpb⟩)
    · rw [if_neg hpb]
      exact Nat.zero_le _

/-- Flattening a `Finset.sup` over the valid-neighborhood set into nested
per-offset sups with independent availability guards. -/
lemma validNbrs_sup_eq (f : ℕ × ℕ × ℕ → ℕ)
    (ex ey ez cx cy cz lv gx gy gz : ℕ) :
    ((validNbrs ex ey ez cx cy cz (lv + 1) gx gy gz).sup f) =
    Finset.sup (Finset.range 2) fun ox =>
      if 2 * gx + ox < availExtent ex cx lv then
        Finset.sup (Finset.range 2) fun oy =>
          if 2 * gy + oy < availExtent ey cy lv then
            Finset.sup (Finset.range 2) fun oz =>
              if 2 * gz + oz < availExtent ez cz lv then f (ox, oy, oz)
              else 0
          else 0
      else 0 := by
  unfold validNbrs
  simp only [Nat.add_sub_cancel]
  rw [sup_filter_eq, Finset.sup_product_left]
  refine Finset.sup_congr rfl fun ox _ => ?_
  rw [Finset.sup_product_left]
  by_cases hox : 2 * gx + ox < availExtent ex cx lv
  · rw [if_pos hox]
    refine Finset.sup_congr rfl fun oy _ => ?_
    by_cases hoy : 2 * gy + oy < availExtent ey cy lv
    · rw [if_pos hoy]
      refine Finset.sup_congr rfl fun oz _ => ?_
      by_cases hoz : 2 * gz + oz < availExtent ez cz lv
      · rw [if_pos hoz, if_pos ⟨hox, hoy, hoz⟩]
      · rw [if_neg hoz, if_neg fun hall => hoz hall.2.2]
    · rw [if_neg hoy]
      apply Nat.le_antisymm _ (Nat.zero_le _)
      apply Finset.sup_le
      intro oz _
      rw [if_neg fun hall => hoy hall.2.1]
  · rw [if_neg hox]
    apply Nat.le_antisymm _ (Nat.zero_le _)
    apply Finset.sup_le
    intro oy _
    apply Finset.sup_le
    intro oz _
    rw [if_neg fun hall => hox hall.1]

/-- Full three-axis collapse of the `np.maximum` accumulation
(`Finset.sup` analogue of `triple_collapse_sum`). -/
lemma triple_collapse_sup (G : ℕ → ℕ → ℕ → ℕ)
    (ex ey ez cx cy cz hx hy hz lv : ℕ)
    (xidx yidx zidx ix iy iz : ℕ)
    (hcx : cx = 2 * hx) (hhx : 0 < hx)
    (hcy : cy = 2 * hy) (hhy : 0 < hy)
    (hcz : cz = 2 * hz) (hhz : 0 < hz)
    (hlv : 1 ≤ lv) (hex : 0 < ex) (hey : 0 < ey) (hez : 0 < ez)
    (hxi : xidx < nBlocks ex cx (lv + 1))
    (hyi : yidx < nBlocks ey cy (lv + 1))
    (hzi : zidx < nBlocks ez cz (lv + 1))
    (hix : ix < chunkEnd ex cx (lv + 1) xidx - chunkStart cx xidx)
    (hiy : iy < chunkEnd ey cy (lv + 1) yidx - chunkStart cy yidx)
    (hiz : iz < chunkEnd ez cz (lv + 1) zidx - chunkStart cz zidx) :
    (Finset.sup (Finset.range 2) fun xsi1 =>
      Finset.sup (Finset.range 2) fun offx =>
      Finset.sup (Finset.range 2) fun ysi1 =>
      Finset.sup (Finset.range 2) fun offy =>
      Finset.sup (Finset.range 2) fun zsi1 =>
      Finset.sup (Finset.range 2) fun offz =>
      if axisCond ex cx lv xidx xsi1 offx ix ∧
         axisCond ey cy lv yidx ysi1 offy iy ∧
         axisCond ez cz lv zidx zsi1 offz iz then
        G (chunkStart cz (zsi1 + zidx * 2) + axisSrc cz zsi1 offz iz)
          (chunkStart cy (ysi1 + yidx * 2) + axisSrc cy ysi1 offy iy)
          (chunkStart cx (xsi1 + xidx * 2) + axisSrc cx xsi1 offx ix)
      else 0) =
    Finset.sup (Finset.range 2) fun offx =>
      if 2 * (xidx * cx + ix) + offx < availExtent ex cx lv then
        Finset.sup (Finset.range 2) fun offy =>
          if 2 * (yidx * cy + iy) + offy < availExtent ey cy lv then
            Finset.sup (Finset.range 2) fun offz =>
              if 2 * (zidx * cz + iz) + offz < availExtent ez cz lv then
                G (2 * (zidx * cz + iz) + offz) (2 * (yidx * cy + iy) + offy)
                  (2 * (xidx * cx + ix) + offx)
              else 0
          else 0
      else 0 := by
  have hvanish : ∀ (s : Finset ℕ) (g : ℕ → ℕ), (∀ b ∈ s, g b = 0) →
      s.sup g = 0 := by
    intro s g hg
    apply Nat.le_antisymm _ (Nat.zero_le _)
    apply Finset.sup_le
    intro b hb
    rw [hg b hb]
  have hzcol : ∀ xsi1 offx ysi1 offy,
      (Finset.sup (Finset.range 2) fun zsi1 =>
        Finset.sup (Finset.range 2) fun offz =>
        if axisCond ex cx lv xidx xsi1 offx ix ∧
           axisCond ey cy lv yidx ysi1 offy iy ∧
           axisCond ez cz lv zidx zsi1 offz iz then
          G (chunkStart cz (zsi1 + zidx * 2) + axisSrc cz zsi1 offz iz)
            (chunkStart cy (ysi1 + yidx * 2) + axisSrc cy ysi1 offy iy)
            (chunkStart cx (xsi1 + xidx * 2) + axisSrc cx xsi1 offx ix)
        else 0) =
      if axisCond ex cx lv xidx xsi1 offx ix ∧
         axisCond ey cy lv yidx ysi1 offy iy then
        Finset.sup (Finset.range 2) fun offz =>
          if 2 * (zidx * cz + iz) + offz < availExtent ez cz lv then
            G (2 * (zidx * cz + iz) + offz)
              (chunkStart cy (ysi1 + yidx * 2) + axisSrc cy ysi1 offy iy)
              (chunkStart cx (xsi1 + xidx * 2) + axisSrc cx xsi1 offx ix)
          else 0
      else 0 := by
    intro xsi1 offx ysi1 offy
    by_cases hxy : axisCond ex cx lv xidx xsi1 offx ix ∧
        axisCond ey cy lv yidx ysi1 offy iy
    · rw [if_pos hxy]
      have hpt : ∀ zsi1 ∈ Finset.range 2, (Finset.sup (Finset.range 2)
          fun offz =>
          if axisCond ex cx lv xidx xsi1 offx ix ∧
             axisCond ey cy lv yidx ysi1 offy iy ∧
             axisCond ez cz lv zidx zsi1 offz iz then
            G (chunkStart cz (zsi1 + zidx * 2) + axisSrc cz zsi1 offz iz)
              (chunkStart cy (ysi1 + yidx * 2) + axisSrc cy ysi1 offy iy)
              (chunkStart cx (xsi1 + xidx * 2) + axisSrc cx xsi1 offx ix)
          else 0) =
          Finset.sup (Finset.range 2) fun offz =>
          if axisCond ez cz lv zidx zsi1 offz iz then
            G (chunkStart cz (zsi1 + zidx * 2) + axisSrc cz zsi1 offz iz)
              (chunkStart cy (ysi1 + yidx * 2) + axisSrc cy ysi1 offy iy)
              (chunkStart cx (xsi1 + xidx * 2) + axisSrc cx xsi1 offx ix)
          else 0 := by
        intro zsi1 _
        refine Finset.sup_congr rfl fun offz _ => ?_
        by_cases hcz2 : axisCond ez cz lv zidx zsi1 offz iz
        · rw [if_pos hcz2, if_pos ⟨hxy.1, hxy.2, hcz2⟩]
        · rw [if_neg hcz2, if_neg fun hall => hcz2 hall.2.2]
      rw [Finset.sup_congr rfl hpt]
      exact axis_collapse_sup
        (fun zc => G zc
          (chunkStart cy (ysi1 + yidx * 2) + axisSrc cy ysi1 offy iy)
          (chunkStart cx (xsi1 + xidx * 2) + axisSrc cx xsi1 offx ix))
        ez cz hz lv zidx iz hcz hhz hlv hez hzi hiz
    · rw [if_neg hxy]
      apply hvanish
      intro zsi1 _
      apply hvanish
      intro offz _
      exact if_neg fun hall => hxy ⟨hall.1, hall.2.1⟩
  have hycol : ∀ xsi1 offx,
      (Finset.sup (Finset.range 2) fun ysi1 =>
        Finset.sup (Finset.range 2) fun offy =>
        if axisCond ex cx lv xidx xsi1 offx ix ∧
           axisCond ey cy lv yidx ysi1 offy iy then
          Finset.sup (Finset.range 2) fun offz =>
            if 2 * (zidx * cz + iz) + offz < availExtent ez cz lv then
              G (2 * (zidx * cz + iz) + offz)
                (chunkStart cy (ysi1 + yidx * 2) + axisSrc cy ysi1 offy iy)
                (chunkStart cx (xsi1 + xidx * 2) + axisSrc cx xsi1 offx ix)
            else 0
        else 0) =
      if axisCond ex cx lv xidx xsi1 offx ix then
        Finset.sup (Finset.range 2) fun offy =>
          if 2 * (yidx * cy + iy) + offy < availExtent ey cy lv then
            Finset.sup (Finset.range 2) fun offz =>
              if 2 * (zidx * cz + iz) + offz < availExtent ez cz lv then
                G (2 * (zidx * cz + iz) + offz) (2 * (yidx * cy + iy) + offy)
                  (chunkStart cx (xsi1 + xidx * 2) + axisSrc cx xsi1 offx ix)
              else 0
          else 0
      else 0 := by
    intro xsi1 offx
    by_cases hcx2 : axisCond ex cx lv xidx xsi1 offx ix
    · rw [if_pos hcx2]
      have hpt : ∀ ysi1 ∈ Finset.range 2, (Finset.sup (Finset.range 2)
          fun offy =>
          if axisCond ex cx lv xidx xsi1 offx ix ∧
             axisCond ey cy lv yidx ysi1 offy iy then
            Finset.sup (Finset.range 2) fun offz =>
              if 2 * (zidx * cz + iz) + offz < availExtent ez cz lv then
                G (2 * (zidx * cz + iz) + offz)
                  (chunkStart cy (ysi1 + yidx * 2) + axisSrc cy ysi1 offy iy)
                  (chunkStart cx (xsi1 + xidx * 2) + axisSrc cx xsi1 offx ix)
              else 0
          else 0) =
          Finset.sup (Finset.range 2) fun offy =>
          if axisCond ey cy lv yidx ysi1 offy iy then
            Finset.sup (Finset.range 2) fun offz =>
              if 2 * (zidx * cz + iz) + offz < availExtent ez cz lv then
                G (2 * (zidx * cz + iz) + offz)
                  (chunkStart cy (ysi1 + yidx * 2) + axisSrc cy ysi1 offy iy)
                  (chunkStart cx (xsi1 + xidx * 2) + axisSrc cx xsi1 offx ix)
              else 0
          else 0 := by
        intro ysi1 _
        refine Finset.sup_congr rfl fun offy _ => ?_
        by_cases hcy2 : axisCond ey cy lv yidx ysi1 offy iy
        · rw [if_pos hcy2, if_pos ⟨hcx2, hcy2⟩]
        · rw [if_neg hcy2, if_neg fun hall => hcy2 hall.2]
      rw [Finset.sup_congr rfl hpt]
      exact axis_collapse_sup
        (fun yc => Finset.sup (Finset.range 2) fun offz =>
          if 2 * (zidx * cz + iz) + offz < availExtent ez cz lv then
            G (2 * (zidx * cz + iz) + offz) yc
              (chunkStart cx (xsi1 + xidx * 2) + axisSrc cx xsi1 offx ix)
          else 0)
        ey cy hy lv yidx iy hcy hhy hlv hey hyi hiy
    · rw [if_neg hcx2]
      apply hvanish
      intro ysi1 _
      apply hvanish
      intro offy _
      exact if_neg fun hall => hcx2 hall.1
  calc (Finset.sup (Finset.range 2) fun xsi1 =>
      Finset.sup (Finset.range 2) fun offx =>
      Finset.sup (Finset.range 2) fun ysi1 =>
      Finset.sup (Finset.range 2) fun offy =>
      Finset.sup (Finset.range 2) fun zsi1 =>
      Finset.sup (Finset.range 2) fun offz =>
      if axisCond ex cx lv xidx xsi1 offx ix ∧
         axisCond ey cy lv yidx ysi1 offy iy ∧
         axisCond ez cz lv zidx zsi1 offz iz then
        G (chunkStart cz (zsi1 + zidx * 2) + axisSrc cz zsi1 offz iz)
          (chunkStart cy (ysi1 + yidx * 2) + axisSrc cy ysi1 offy iy)
          (chunkStart cx (xsi1 + xidx * 2) + axisSrc cx xsi1 offx ix)
      else 0)
      = Finset.sup (Finset.range 2) fun xsi1 =>
          Finset.sup (Finset.range 2) fun offx =>
          Finset.sup (Finset.range 2) fun ysi1 =>
          Finset.sup (Finset.range 2) fun offy =>
          if axisCond ex cx lv xidx xsi1 offx ix ∧
             axisCond ey cy lv yidx ysi1 offy iy then
            Finset.sup (Finset.range 2) fun offz =>
              if 2 * (zidx * cz + iz) + offz < availExtent ez cz lv then
                G (2 * (zidx * cz + iz) + offz)
                  (chunkStart cy (ysi1 + yidx * 2) + axisSrc cy ysi1 offy iy)
                  (chunkStart cx (xsi1 + xidx * 2) + axisSrc cx xsi1 offx ix)
              else 0
          else 0 := by
        refine Finset.sup_congr rfl fun xsi1 _ => ?_
        refine Finset.sup_congr rfl fun offx _ => ?_
        refine Finset.sup_congr rfl fun ysi1 _ => ?_
        refine Finset.sup_congr rfl fun offy _ => ?_
        exact hzcol xsi1 offx ysi1 offy
    _ = Finset.sup (Finset.range 2) fun xsi1 =>
          Finset.sup (Finset.range 2) fun offx =>
          if axisCond ex cx lv xidx xsi1 offx ix then
            Finset.sup (Finset.range 2) fun offy =>
              if 2 * (yidx * cy + iy) + offy < availExtent ey cy lv then
                Finset.sup (Finset.range 2) fun offz =>
                  if 2 * (zidx * cz + iz) + offz < availExtent ez cz lv then
                    G (2 * (zidx * cz + iz) + offz)
                      (2 * (yidx * cy + iy) + offy)
                      (chunkStart cx (xsi1 + xidx * 2) +
                        axisSrc cx xsi1 offx ix)
                  else 0
              else 0
          else 0 := by
        refine Finset.sup_congr rfl fun xsi1 _ => ?_
        refine Finset.sup_congr rfl fun offx _ => ?_
        exact hycol xsi1 offx
    _ = _ := by
        exact axis_collapse_sup
          (fun xc => Finset.sup (Finset.range 2) fun offy =>
            if 2 * (yidx * cy + iy) + offy < availExtent ey cy lv then
              Finset.sup (Finset.range 2) fun offz =>
                if 2 * (zidx * cz + iz) + offz < availExtent ez cz lv then
                  G (2 * (zidx * cz + iz) + offz) (2 * (yidx * cy + iy) + offy)
                    xc
                else 0
            else 0)
          ex cx hx lv xidx ix hcx hhx hlv hex hxi hix

/-- Closed witness for `writeOneLevelN_image_avg` at a concrete input:
3×2×2 level-1 volume `src(z,y,x) = x + 2y + 3z`, chunk size 2, level 2,
destination chunk `(0,0,0)`, voxel `(0,0,0)` (all 8 neighbors valid,
average `24 / 8 = 3`). -/
theorem writeOneLevelN_image_avg_witness :
    (2 ≤ 2 ∧ 0 < (3 : ℕ) ∧ (2 : ℕ) % 2 = 0 ∧ 0 < nBlocks 3 2 2 ∧
      0 < chunkEnd 3 2 2 0 - chunkStart 2 0) ∧
    writeOneLevelN (fun z y x => x + 2 * y + 3 * z) 3 2 2 2 2 2 2
        0 0 0 0 0 0 =
      (∑ o ∈ validNbrs 3 2 2 2 2 2 2 (0 * 2 + 0) (0 * 2 + 0) (0 * 2 + 0),
        (fun z y x => x + 2 * y + 3 * z) (2 * (0 * 2 + 0) + o.2.2)
          (2 * (0 * 2 + 0) + o.2.1) (2 * (0 * 2 + 0) + o.1)) /
      (validNbrs 3 2 2 2 2 2 2 (0 * 2 + 0) (0 * 2 + 0)
        (0 * 2 + 0)).card :=
  ⟨⟨by decide, by decide, by decide, by decide, by decide⟩,
    writeOneLevelN_image_avg (fun z y x => x + 2 * y + 3 * z) 3 2 2 2 2 2 2
      0 0 0 0 0 0 (by decide) (by decide) (by decide) (by decide)
      (by decide) (by decide) (by decide) (by decide) (by decide)
      (by decide) (by decide) (by decide) (by decide) (by decide)
      (by decide) (by decide)⟩

/-- C1 (amended): for every segmentation-type volume built with the
*blockfs* backend, level `n ≥ 2`, destination chunk visited by the build
loop and destination voxel of that chunk, the value written by
`BlockfsStack.write_stack_level_n` equals the element-wise maximum of the
valid phase-shifted level-`n-1` sub-lattice voxels of its 2×2×2
neighborhood (0, the accumulator's initial value, when none is valid).
The claim's extension to the tiff `Stack` backend is false:
`Stack.write_level_n` has no segmentation branch and always averages
(see `stack_segmentation_not_max`). -/
theorem writeStackLevelN_seg_max (src : ℕ → ℕ → ℕ → ℕ)
    (ex ey ez cx cy cz level xidx yidx zidx iz iy ix : ℕ)
    (hlevel : 2 ≤ level)
    (hex : 0 < ex) (hey : 0 < ey) (hez : 0 < ez)
    (hcx2 : cx % 2 = 0) (hcx0 : 0 < cx)
    (hcy2 : cy % 2 = 0) (hcy0 : 0 < cy)
    (hcz2 : cz % 2 = 0) (hcz0 : 0 < cz)
    (hxi : xidx < nBlocks ex cx level) (hyi : yidx < nBlocks ey cy level)
    (hzi : zidx < nBlocks ez cz level)
    (hix : ix < chunkEnd ex cx level xidx - chunkStart cx xidx)
    (hiy : iy < chunkEnd ey cy level yidx - chunkStart cy yidx)
    (hiz : iz < chunkEnd ez cz level zidx - chunkStart cz zidx) :
    writeStackLevelN src ex ey ez cx cy cz level xidx yidx zidx iz iy ix =
      (validNbrs ex ey ez cx cy cz level (xidx * cx + ix)
          (yidx * cy + iy) (zidx * cz + iz)).sup fun o =>
        src (2 * (zidx * cz + iz) + o.2.2) (2 * (yidx * cy + iy) + o.2.1)
          (2 * (xidx * cx + ix) + o.1) := by
  obtain ⟨lv, rfl⟩ : ∃ lv, level = lv + 1 := ⟨level - 1, by omega⟩
  have hlv : 1 ≤ lv := by omega
  have hcx : cx = 2 * (cx / 2) := by omega
  have hhx : 0 < cx / 2 := by omega
  have hcy : cy = 2 * (cy / 2) := by omega
  have hhy : 0 < cy / 2 := by omega
  have hcz : cz = 2 * (cz / 2) := by omega
  have hhz : 0 < cz / 2 := by omega
  have hread : ∀ xsi1 offx ysi1 offy zsi1 offz,
      (if axisCond ex cx lv xidx xsi1 offx ix ∧
          axisCond ey cy lv yidx ysi1 offy iy ∧
          axisCond ez cz lv zidx zsi1 offz iz then
        srcBlock src ex ey ez cx cy cz lv (xsi1 + xidx * 2)
          (ysi1 + yidx * 2) (zsi1 + zidx * 2) (axisSrc cz zsi1 offz iz)
          (axisSrc cy ysi1 offy iy) (axisSrc cx xsi1 offx ix)
      else 0) =
      (if axisCond ex cx lv xidx xsi1 offx ix ∧
          axisCond ey cy lv yidx ysi1 offy iy ∧
          axisCond ez cz lv zidx zsi1 offz iz then
        src (chunkStart cz (zsi1 + zidx * 2) + axisSrc cz zsi1 offz iz)
          (chunkStart cy (ysi1 + yidx * 2) + axisSrc cy ysi1 offy iy)
          (chunkStart cx (xsi1 + xidx * 2) + axisSrc cx xsi1 offx ix)
      else 0) := by
    intro xsi1 offx ysi1 offy zsi1 offz
    apply if_eq_if _ _ _ _ Iff.rfl
    rintro ⟨hcx', hcy', hcz'⟩
    unfold srcBlock
    rw [if_pos ⟨axisCond_srcLt ez cz lv zidx zsi1 offz iz hcz',
      axisCond_srcLt ey cy lv yidx ysi1 offy iy hcy',
      axisCond_srcLt ex cx lv xidx xsi1 offx ix hcx'⟩]
  have hblock := triple_collapse_sup src ex ey ez cx cy cz (cx / 2)
    (cy / 2) (cz / 2) lv xidx yidx zidx ix iy iz hcx hhx hcy hhy hcz hhz
    hlv hex hey hez hxi hyi hzi hix hiy hiz
  have hsup : ((validNbrs ex ey ez cx cy cz (lv + 1) (xidx * cx + ix)
      (yidx * cy + iy) (zidx * cz + iz)).sup fun o =>
      src (2 * (zidx * cz + iz) + o.2.2) (2 * (yidx * cy + iy) + o.2.1)
        (2 * (xidx * cx + ix) + o.1)) =
      Finset.sup (Finset.range 2) fun offx =>
        if 2 * (xidx * cx + ix) + offx < availExtent ex cx lv then
          Finset.sup (Finset.range 2) fun offy =>
            if 2 * (yidx * cy + iy) + offy < availExtent ey cy lv then
              Finset.sup (Finset.range 2) fun offz =>
                if 2 * (zidx * cz + iz) + offz < availExtent ez cz lv then
                  src (2 * (zidx * cz + iz) + offz)
                    (2 * (yidx * cy + iy) + offy) (2 * (xidx * cx + ix) + offx)
                else 0
            else 0
        else 0 :=
    validNbrs_sup_eq
      (fun o => src (2 * (zidx * cz + iz) + o.2.2)
        (2 * (yidx * cy + iy) + o.2.1) (2 * (xidx * cx + ix) + o.1))
      ex ey ez cx cy cz lv (xidx * cx + ix) (yidx * cy + iy)
      (zidx * cz + iz)
  unfold writeStackLevelN
  simp only [Nat.add_sub_cancel]
  rw [Finset.sup_congr rfl fun xsi1 _ => Finset.sup_congr rfl fun offx _ =>
    Finset.sup_congr rfl fun ysi1 _ => Finset.sup_congr rfl fun offy _ =>
    Finset.sup_congr rfl fun zsi1 _ => Finset.sup_congr rfl fun offz _ =>
    hread xsi1 offx ysi1 offy zsi1 offz]
  rw [hblock, ← hsup]

/-- Closed witness for `writeStackLevelN_seg_max` at a concrete input:
2×2×2 level-1 label volume `src(z,y,x) = 3x`, chunk size 2, level 2,
destination voxel `(0,0,0)` (maximum of `{0, 3}` is 3). -/
theorem writeStackLevelN_seg_max_witness :
    (2 ≤ 2 ∧ 0 < (2 : ℕ) ∧ (2 : ℕ) % 2 = 0 ∧ 0 < nBlocks 2 2 2 ∧
      0 < chunkEnd 2 2 2 0 - chunkStart 2 0) ∧
    writeStackLevelN (fun _ _ x => 3 * x) 2 2 2 2 2 2 2 0 0 0 0 0 0 =
      (validNbrs 2 2 2 2 2 2 2 (0 * 2 + 0) (0 * 2 + 0) (0 * 2 + 0)).sup
        fun o => (fun _ _ x => 3 * x) (2 * (0 * 2 + 0) + o.2.2)
          (2 * (0 * 2 + 0) + o.2.1) (2 * (0 * 2 + 0) + o.1) :=
  ⟨⟨by decide, by decide, by decide, by decide, by decide⟩,
    writeStackLevelN_seg_max (fun _ _ x => 3 * x) 2 2 2 2 2 2 2
      0 0 0 0 0 0 (by decide) (by decide) (by decide) (by decide)
      (by decide) (by decide) (by decide) (by decide) (by decide)
      (by decide) (by decide) (by decide) (by decide) (by decide)
      (by decide) (by decide)⟩

/-- C1 counterexample: the tiff backend (`Stack.write_level_n`) applies
`Stack.write_one_level_n` — the averaging worker — for *every* `ptype`,
segmentation included; `stack.py` has no `np.maximum` path.  For the
2×2×2 segmentation volume `src(z,y,x) = 3x` (labels 0 and 3), chunk size
2, the level-2 voxel written by the tiff build is the average `12 / 8 =
1`, not the element-wise maximum 3 of its valid sub-lattice voxels, so
the claim as stated (max downsampling on every backend) is false. -/
theorem stack_segmentation_not_max :
    writeOneLevelN (fun _ _ x => 3 * x) 2 2 2 2 2 2 2 0 0 0 0 0 0 = 1 ∧
    ((validNbrs 2 2 2 2 2 2 2 0 0 0).sup
      fun o => (fun _ _ x => 3 * x) (2 * 0 + o.2.2) (2 * 0 + o.2.1)
        (2 * 0 + o.1)) = 3 ∧
    writeOneLevelN (fun _ _ x => 3 * x) 2 2 2 2 2 2 2 0 0 0 0 0 0 ≠
      ((validNbrs 2 2 2 2 2 2 2 0 0 0).sup
        fun o => (fun _ _ x => 3 * x) (2 * 0 + o.2.2) (2 * 0 + o.2.1)
          (2 * 0 + o.1)) := by
  refine ⟨by decide, by decide, by decide⟩

/-! ### Reader lemmas (claims C5, C6) -/

/-- Conditional rewriting of guarded values with a common default. -/
lemma ite_eq_ite (p q : Prop) [Decidable p] [Decidable q] (a b d : ℕ)
    (hpq : p ↔ q) (hab : p → a = b) :
    (if p then a else d) = (if q then b else d) := by
  by_cases hp : p
  · rw [if_pos hp, if_pos (hpq.mp hp), hab hp]
  · rw [if_neg hp, if_neg fun hq => hp (hpq.mpr hq)]

/-- The sequential two-sided clip writes exactly the output rows whose
global coordinate lies in `[max(chunk_start, query_start),
min(chunk_end, query_end))`. -/
lemma clip_window_iff (c0 c1 q0 q1 p : ℕ) :
    (clipStart c0 q0 - q0 ≤ p ∧
      p < (clipStart c0 q0 - q0) + clipLen c0 c1 q0 q1) ↔
      (max c0 q0 ≤ q0 + p ∧ q0 + p < min c1 q1) := by
  unfold clipLen clipStart
  split_ifs <;> omega

/-- The clipped chunk row copied to output row `p` is the chunk-local row
of the global coordinate `q0 + p`. -/
lemma clip_index_eq (c0 q0 p : ℕ) (_h : max c0 q0 ≤ q0 + p) :
    clipLow c0 q0 + (p - (clipStart c0 q0 - q0)) = q0 + p - c0 := by
  unfold clipLow clipStart
  split_ifs <;> omega

/-- One loop iteration of `read_chunk`, in closed form: it overwrites
exactly the output voxels whose global coordinates lie in the chunk's
bounds intersected with the query, with the fetched block's value at the
chunk-local coordinates. -/
lemma readChunkBody_apply
    (fetch : ℕ → ℕ → ℕ → ℕ → ℕ → ℕ → (ℕ → ℕ → ℕ → ℕ))
    (stx sty stz x1d y1d z1d x0 x1 y0 y1 z0 z1 : ℕ) (t : ℕ × ℕ × ℕ)
    (res : ℕ → ℕ → ℕ → ℕ) (pz py px : ℕ) :
    readChunkBody fetch stx sty stz x1d y1d z1d x0 x1 y0 y1 z0 z1 t res
        pz py px =
      if (max t.2.2 z0 ≤ z0 + pz ∧
            z0 + pz < min (min z1d (t.2.2 + stz)) z1) ∧
         (max t.2.1 y0 ≤ y0 + py ∧
            y0 + py < min (min y1d (t.2.1 + sty)) y1) ∧
         (max t.1 x0 ≤ x0 + px ∧
            x0 + px < min (min x1d (t.1 + stx)) x1) then
        fetch t.1 (min x1d (t.1 + stx)) t.2.1 (min y1d (t.2.1 + sty))
          t.2.2 (min z1d (t.2.2 + stz)) (z0 + pz - t.2.2)
          (y0 + py - t.2.1) (x0 + px - t.1)
      else res pz py px := by
  unfold readChunkBody
  apply ite_eq_ite
  · exact and_congr (clip_window_iff _ _ _ _ _)
      (and_congr (clip_window_iff _ _ _ _ _) (clip_window_iff _ _ _ _ _))
  · intro hp
    have hz := (clip_window_iff t.2.2 (min z1d (t.2.2 + stz)) z0 z1 pz).mp
      hp.1
    have hy := (clip_window_iff t.2.1 (min y1d (t.2.1 + sty)) y0 y1 py).mp
      hp.2.1
    have hx := (clip_window_iff t.1 (min x1d (t.1 + stx)) x0 x1 px).mp
      hp.2.2
    rw [clip_index_eq _ _ _ hz.1, clip_index_eq _ _ _ hy.1,
      clip_index_eq _ _ _ hx.1]

/-- `_chunk_end` never exceeds the volume end. -/
lemma pyChunkEnd_le (coord offset stride endv : ℕ) :
    pyChunkEnd coord offset stride endv ≤ endv := by
  unfold pyChunkEnd
  split_ifs
  · exact le_refl _
  · omega

/-- `_chunk_start(0, 0, s) = 0` and `_chunk_end(e, 0, s, e) = e`: a
full-extent query on a zero-offset volume covers exactly `[0, e)`. -/
lemma pyChunk_full (e s : ℕ) (hs : 0 < s) :
    pyChunkStart 0 0 s = 0 ∧ pyChunkEnd e 0 s (0 + e) = e := by
  have h1 : e % s < s := Nat.mod_lt _ hs
  have h2 := Nat.mod_le e s
  constructor
  · unfold pyChunkStart
    rw [if_neg (Nat.not_lt_zero _)]
    simp
  · unfold pyChunkEnd pyChunkStart
    rw [if_neg (Nat.not_lt_zero _)]
    simp only [Nat.sub_zero, Nat.zero_add]
    split_ifs with h
    · rfl
    · omega

/-- Membership in a zero-based Python `range(0, e, s)`: the multiples of
`s` below `e`. -/
lemma mem_pyRange_zero (e s m : ℕ) (hs : 0 < s) :
    m ∈ pyRange 0 e s ↔ m % s = 0 ∧ m < e := by
  unfold pyRange
  rw [List.mem_range']
  constructor
  · rintro ⟨i, hi, rfl⟩
    have hi' : i < (e + s - 1) / s := by simpa using hi
    have hlt := (lt_ceilDiv_iff e s i hs).mp hi'
    have hmul : s * i = i * s := Nat.mul_comm _ _
    constructor
    · simp [Nat.mul_mod_right]
    · omega
  · rintro ⟨hmod, hlt⟩
    refine ⟨m / s, ?_, ?_⟩
    · have hms : m / s * s = m := Nat.div_mul_cancel
        (Nat.dvd_of_mod_eq_zero hmod)
      have : m / s < (e + s - 1) / s := by
        rw [lt_ceilDiv_iff e s _ hs, hms]
        exact hlt
      simpa using this
    · rw [Nat.zero_add, Nat.mul_comm,
        Nat.div_mul_cancel (Nat.dvd_of_mod_eq_zero hmod)]

/-- Decomposing membership in the enumerated chunk-origin triples. -/
lemma mem_chunkOrigins (x0d x1d stx y0d y1d sty z0d z1d stz : ℕ)
    (t : ℕ × ℕ × ℕ) :
    t ∈ chunkOrigins x0d x1d stx y0d y1d sty z0d z1d stz ↔
      t.1 ∈ pyRange x0d x1d stx ∧ t.2.1 ∈ pyRange y0d y1d sty ∧
        t.2.2 ∈ pyRange z0d z1d stz := by
  unfold chunkOrigins
  simp only [List.mem_flatMap, List.mem_map]
  constructor
  · rintro ⟨a, ha, b, hb, c, hc, rfl⟩
    exact ⟨ha, hb, hc⟩
  · rintro ⟨h1, h2, h3⟩
    exact ⟨t.1, h1, t.2.1, h2, t.2.2, h3, rfl⟩

/-- A fold of per-chunk writes leaves an output voxel untouched when no
iteration writes it. -/
lemma foldl_apply_of_no_write {α : Type}
    (f : (ℕ → ℕ → ℕ → ℕ) → α → (ℕ → ℕ → ℕ → ℕ)) (pz py px : ℕ) :
    ∀ (L : List α), (∀ r t, t ∈ L → f r t pz py px = r pz py px) →
      ∀ res, L.foldl f res pz py px = res pz py px := by
  intro L
  induction L with
  | nil => intro _ res; rfl
  | cons t L ih =>
    intro h res
    rw [List.foldl_cons,
      ih (fun r t' ht' => h r t' (List.mem_cons_of_mem _ ht'))]
    exact h res t (List.mem_cons_self _ _)

/-- A fold of per-chunk writes yields `v` at an output voxel when every
iteration writing that voxel writes `v` (and at least one does). -/
lemma foldl_apply_of_write {α : Type}
    (f : (ℕ → ℕ → ℕ → ℕ) → α → (ℕ → ℕ → ℕ → ℕ)) (pz py px v : ℕ)
    (t0 : α) :
    ∀ (L : List α), t0 ∈ L → (∀ r, f r t0 pz py px = v) →
      (∀ r t, t ∈ L → t ≠ t0 → f r t pz py px = r pz py px) →
      ∀ res, L.foldl f res pz py px = v := by
  intro L
  induction L with
  | nil => intro h; cases h
  | cons t L ih =>
    intro ht0 hw hother res
    rw [List.foldl_cons]
    by_cases htL : t0 ∈ L
    · exact ih htL hw
        (fun r t' ht' hne => hother r t' (List.mem_cons_of_mem _ ht') hne) _
    · have hteq : t = t0 := by
        rcases List.mem_cons.mp ht0 with h | h
        · exact h.symm
        · exact absurd h htL
      subst hteq
      rw [foldl_apply_of_no_write f pz py px L
        (fun r t' ht' => hother r t' (List.mem_cons_of_mem _ ht')
          fun he => htL (he ▸ ht'))]
      exact hw res

/-- `readChunkBody_apply` with the origin triple spelt out. -/
lemma readChunkBody_apply3
    (fetch : ℕ → ℕ → ℕ → ℕ → ℕ → ℕ → (ℕ → ℕ → ℕ → ℕ))
    (stx sty stz x1d y1d z1d x0 x1 y0 y1 z0 z1 : ℕ) (a b c : ℕ)
    (res : ℕ → ℕ → ℕ → ℕ) (pz py px : ℕ) :
    readChunkBody fetch stx sty stz x1d y1d z1d x0 x1 y0 y1 z0 z1
        (a, b, c) res pz py px =
      if (max c z0 ≤ z0 + pz ∧ z0 + pz < min (min z1d (c + stz)) z1) ∧
         (max b y0 ≤ y0 + py ∧ y0 + py < min (min y1d (b + sty)) y1) ∧
         (max a x0 ≤ x0 + px ∧ x0 + px < min (min x1d (a + stx)) x1) then
        fetch a (min x1d (a + stx)) b (min y1d (b + sty)) c
          (min z1d (c + stz)) (z0 + pz - c) (y0 + py - b) (x0 + px - a)
      else res pz py px :=
  readChunkBody_apply fetch stx sty stz x1d y1d z1d x0 x1 y0 y1 z0 z1
    (a, b, c) res pz py px

/-- The chunk-aligned origin below `p`: the multiple of `s` at or below
`p` is divisible, is below any extent bounding `p`, and covers `p`. -/
lemma align_mod_lt (p e s : ℕ) (hs : 0 < s) (hp : p < e) :
    (p - p % s) % s = 0 ∧ p - p % s < e ∧ p - p % s ≤ p ∧
      p < (p - p % s) + s := by
  have hd := Nat.div_add_mod p s
  have hm : p % s < s := Nat.mod_lt _ hs
  have h1 : p - p % s = s * (p / s) := by omega
  refine ⟨?_, by omega, by omega, by omega⟩
  rw [h1, Nat.mul_mod_right]

/-- Any aligned chunk origin covering `p` is the canonical one. -/
lemma align_unique (p s a : ℕ) (hs : 0 < s) (hmod : a % s = 0)
    (hle : a ≤ p) (hlt : p < a + s) : a = p - p % s := by
  have hd := Nat.div_add_mod p s
  have hda := Nat.div_add_mod a s
  have hm : p % s < s := Nat.mod_lt _ hs
  have h1 : a = s * (a / s) := by omega
  have hc1 : a / s * s = s * (a / s) := Nat.mul_comm _ _
  have hc3 : (a / s + 1) * s = s * (a / s) + s := by ring
  have h2 : p / s = a / s := Nat.div_eq_of_lt_le (by omega) (by omega)
  rw [h2] at hd
  omega

/-- C6: for every query rectangle `[x0,x1)×[y0,y1)×[z0,z1)` on a
zero-offset volume of shape `(sx, sy, sz)`, `read_chunk` returns an array
of exactly shape `(z1-z0, y1-y0, x1-x0)` (in the manifest's dtype);
every output voxel whose global coordinate lies outside the stored
volume on some axis is zero; and a rectangle lying entirely outside the
stored volume yields the all-zero array of the requested shape — the
function is total, no error is raised. -/
theorem readChunk_shape_zero_fill
    (fetch : ℕ → ℕ → ℕ → ℕ → ℕ → ℕ → (ℕ → ℕ → ℕ → ℕ))
    (sx sy sz stx sty stz x0 x1 y0 y1 z0 z1 : ℕ) :
    readChunkShape x0 x1 y0 y1 z0 z1 = (z1 - z0, y1 - y0, x1 - x0) ∧
    (∀ pz py px, sz ≤ z0 + pz ∨ sy ≤ y0 + py ∨ sx ≤ x0 + px →
      readChunk fetch sx sy sz 0 0 0 stx sty stz x0 x1 y0 y1 z0 z1
        pz py px = 0) ∧
    (sx ≤ x0 ∨ sy ≤ y0 ∨ sz ≤ z0 →
      ∀ pz py px, readChunk fetch sx sy sz 0 0 0 stx sty stz x0 x1 y0 y1
        z0 z1 pz py px = 0) := by
  have hzero : ∀ pz py px,
      (sz ≤ z0 + pz ∨ sy ≤ y0 + py ∨ sx ≤ x0 + px) →
      readChunk fetch sx sy sz 0 0 0 stx sty stz x0 x1 y0 y1 z0 z1
        pz py px = 0 := by
    intro pz py px hout
    unfold readChunk
    apply foldl_apply_of_no_write
    intro r t ht
    rw [readChunkBody_apply]
    apply if_neg
    rintro ⟨⟨-, hzu⟩, ⟨-, hyu⟩, ⟨-, hxu⟩⟩
    have hze := pyChunkEnd_le z1 0 stz (0 + sz)
    have hye := pyChunkEnd_le y1 0 sty (0 + sy)
    have hxe := pyChunkEnd_le x1 0 stx (0 + sx)
    omega
  exact ⟨rfl, hzero, fun hout pz py px => hzero pz py px (by omega)⟩

/-- Closed witness for `readChunk_shape_zero_fill`: a 4×4×4 volume with
chunk size 2, queried at `[3,6)³` (partially outside) and `[10,12)³`
(entirely outside). -/
theorem readChunk_shape_zero_fill_witness :
    (readChunkShape 3 6 3 6 3 6 = (3, 3, 3) ∧
      readChunk (fun _ _ _ _ _ _ _ _ _ => 7) 4 4 4 0 0 0 2 2 2
        3 6 3 6 3 6 2 0 0 = 0) ∧
    ((10 : ℕ) ≤ 10 ∨ (4 : ℕ) ≤ 10 ∨ (4 : ℕ) ≤ 10) ∧
    readChunk (fun _ _ _ _ _ _ _ _ _ => 7) 10 4 4 0 0 0 2 2 2
      10 12 0 2 0 2 1 1 1 = 0 := by
  refine ⟨⟨?_, ?_⟩, by norm_num, ?_⟩
  · exact (readChunk_shape_zero_fill (fun _ _ _ _ _ _ _ _ _ => 7)
      4 4 4 2 2 2 3 6 3 6 3 6).1
  · exact (readChunk_shape_zero_fill (fun _ _ _ _ _ _ _ _ _ => 7)
      4 4 4 2 2 2 3 6 3 6 3 6).2.1 2 0 0 (by norm_num)
  · exact (readChunk_shape_zero_fill (fun _ _ _ _ _ _ _ _ _ => 7)
      10 4 4 2 2 2 10 12 0 2 0 2).2.2 (by norm_num) 1 1 1

/-- C5: writing level 1 from a source volume `src` (per-plane images
chunked on the level-1 tiling grid by `Stack.write_one_level_1`) and
reading the full extent `[0,ex)×[0,ey)×[0,ez)` back through `read_chunk`
reproduces the source voxel for voxel (values bit-identical; the store
round-trips the dtype unchanged). -/
theorem level1_roundTrip (src : ℕ → ℕ → ℕ → ℕ) (ex ey ez cx cy cz : ℕ)
    (hcx : 0 < cx) (hcy : 0 < cy) (hcz : 0 < cz)
    (pz py px : ℕ) (hpz : pz < ez) (hpy : py < ey) (hpx : px < ex) :
    readChunk (level1Fetch src ex ey ez cx cy cz) ex ey ez 0 0 0 cx cy cz
      0 ex 0 ey 0 ez pz py px = src pz py px := by
  obtain ⟨hs0x, he0x⟩ := pyChunk_full ex cx hcx
  obtain ⟨hs0y, he0y⟩ := pyChunk_full ey cy hcy
  obtain ⟨hs0z, he0z⟩ := pyChunk_full ez cz hcz
  have hax := align_mod_lt px ex cx hcx hpx
  have hay := align_mod_lt py ey cy hcy hpy
  have haz := align_mod_lt pz ez cz hcz hpz
  unfold readChunk
  rw [hs0x, hs0y, hs0z, he0x, he0y, he0z]
  apply foldl_apply_of_write _ pz py px _
    (px - px % cx, py - py % cy, pz - pz % cz)
  · rw [mem_chunkOrigins]
    exact ⟨(mem_pyRange_zero ex cx _ hcx).mpr ⟨hax.1, hax.2.1⟩,
      (mem_pyRange_zero ey cy _ hcy).mpr ⟨hay.1, hay.2.1⟩,
      (mem_pyRange_zero ez cz _ hcz).mpr ⟨haz.1, haz.2.1⟩⟩
  · intro r
    rw [readChunkBody_apply3]
    rw [if_pos ⟨⟨by omega, by omega⟩, ⟨by omega, by omega⟩,
      ⟨by omega, by omega⟩⟩]
    unfold level1Fetch
    rw [if_pos ⟨⟨hax.1, hax.2.1, Nat.min_comm _ _⟩,
      ⟨hay.1, hay.2.1, Nat.min_comm _ _⟩,
      ⟨haz.1, haz.2.1, Nat.min_comm _ _⟩, by omega, by omega, by omega⟩]
    have e1 : pz - pz % cz + (0 + pz - (pz - pz % cz)) = pz := by omega
    have e2 : py - py % cy + (0 + py - (py - py % cy)) = py := by omega
    have e3 : px - px % cx + (0 + px - (px - px % cx)) = px := by omega
    rw [e1, e2, e3]
  · rintro r ⟨a, b, c⟩ ht hne
    rw [mem_chunkOrigins] at ht
    obtain ⟨htx, hty, htz⟩ := ht
    rw [mem_pyRange_zero _ _ _ hcx] at htx
    rw [mem_pyRange_zero _ _ _ hcy] at hty
    rw [mem_pyRange_zero _ _ _ hcz] at htz
    rw [readChunkBody_apply3]
    apply if_neg
    rintro ⟨⟨hz1, hz2⟩, ⟨hy1, hy2⟩, ⟨hx1, hx2⟩⟩
    apply hne
    have hxa : a = px - px % cx :=
      align_unique px cx a hcx htx.1 (by omega) (by omega)
    have hyb : b = py - py % cy :=
      align_unique py cy b hcy hty.1 (by omega) (by omega)
    have hzc : c = pz - pz % cz :=
      align_unique pz cz c hcz htz.1 (by omega) (by omega)
    rw [hxa, hyb, hzc]

/-- Closed witness for `level1_roundTrip`: a 5×3×3 volume
`src(z,y,x) = 9z + 3y + x`, chunk size 2, read back at voxel
`(2, 1, 4)`. -/
theorem level1_roundTrip_witness :
    (0 < (2 : ℕ) ∧ (2 : ℕ) < 3 ∧ (1 : ℕ) < 3 ∧ (4 : ℕ) < 5) ∧
    readChunk
        (level1Fetch (fun z y x => 9 * z + 3 * y + x) 5 3 3 2 2 2)
        5 3 3 0 0 0 2 2 2 0 5 0 3 0 3 2 1 4 =
      (fun z y x => 9 * z + 3 * y + x) 2 1 4 :=
  ⟨⟨by norm_num, by norm_num, by norm_num, by norm_num⟩,
    level1_roundTrip (fun z y x => 9 * z + 3 * y + x) 5 3 3 2 2 2
      (by norm_num) (by norm_num) (by norm_num) 2 1 4 (by norm_num)
      (by norm_num) (by norm_num)⟩

/-- C7: `__getitem__` follows Python slice semantics.  (i) A negative
start `-a` (`0 < a ≤ extent`) on an axis gives the same result as the
explicit range `[extent - a, extent)` — the spec's
`reader[-10:, :, :] = reader[extent-10 : extent, :, :]`.  (ii) Omitted
(`None`) bounds mean `[0, extent)`.  (iii) An integer (non-slice) index
`i ≥ 0` produces the same data and per-axis lengths as the slice
`[i, i+1)` — the axis has length 1 — but is additionally marked for
squeezing, so the final shape drops that leading length-1 axis.
(iv) Steps other than 1 sub-sample the assembled dense result: the
stepped read calls `read_chunk` with the same bounds and its voxel
`(i, j, k)` is the base (step-1) result's voxel `(i*kz, j*ky, k*kx)`,
with per-axis lengths `ceil(len / step)`. -/
theorem getItem_slice_semantics {α : Type}
    (readc : ℤ → ℤ → ℤ → ℤ → ℤ → ℤ → (ℕ → ℕ → ℕ → α))
    (shape : ℕ × ℕ × ℕ) :
    (∀ (a : ℕ), 0 < a → a ≤ shape.1 → ∀ ky kx,
      getItem readc shape (PyIndex.sl (some (-(a : ℤ))) none none) ky kx =
        getItem readc shape
          (PyIndex.sl (some ((shape.1 : ℤ) - a)) (some (shape.1 : ℤ))
            none) ky kx) ∧
    (∀ stp ky kx,
      getItem readc shape (PyIndex.sl none none stp) ky kx =
        getItem readc shape
          (PyIndex.sl (some 0) (some (shape.1 : ℤ)) stp) ky kx) ∧
    (∀ (i : ℤ), 0 ≤ i → ∀ ky kx,
      (getItem readc shape (PyIndex.idx i) ky kx).dims =
          (getItem readc shape (PyIndex.sl (some i) (some (i + 1)) none)
            ky kx).dims ∧
      (getItem readc shape (PyIndex.idx i) ky kx).val =
          (getItem readc shape (PyIndex.sl (some i) (some (i + 1)) none)
            ky kx).val ∧
      (getItem readc shape (PyIndex.idx i) ky kx).dims.1 = 1 ∧
      (getItem readc shape (PyIndex.idx i) ky kx).squish.1 = true ∧
      finalShape (getItem readc shape (PyIndex.idx i) ky kx) =
        (finalShape (getItem readc shape
          (PyIndex.sl (some i) (some (i + 1)) none) ky kx)).tail) ∧
    (∀ bz ez2 by2 ey2 bx ex2 (kz ky kx : ℕ),
      0 < kz → 0 < ky → 0 < kx →
      (∀ i j k,
        (getItem readc shape (PyIndex.sl bz ez2 (some kz))
          (PyIndex.sl by2 ey2 (some ky))
          (PyIndex.sl bx ex2 (some kx))).val i j k =
        (getItem readc shape (PyIndex.sl bz ez2 none)
          (PyIndex.sl by2 ey2 none) (PyIndex.sl bx ex2 none)).val
          (i * kz) (j * ky) (k * kx)) ∧
      (getItem readc shape (PyIndex.sl bz ez2 (some kz))
          (PyIndex.sl by2 ey2 (some ky))
          (PyIndex.sl bx ex2 (some kx))).dims =
        (((getItem readc shape (PyIndex.sl bz ez2 none)
            (PyIndex.sl by2 ey2 none)
            (PyIndex.sl bx ex2 none)).dims.1 + kz - 1) / kz,
          ((getItem readc shape (PyIndex.sl bz ez2 none)
            (PyIndex.sl by2 ey2 none)
            (PyIndex.sl bx ex2 none)).dims.2.1 + ky - 1) / ky,
          ((getItem readc shape (PyIndex.sl bz ez2 none)
            (PyIndex.sl by2 ey2 none)
            (PyIndex.sl bx ex2 none)).dims.2.2 + kx - 1) / kx)) := by
  refine ⟨?_, ?_, ?_, ?_⟩
  · intro a ha1 ha2 ky kx
    have hstart : axisStart shape.1
        (PyIndex.sl (some (-(a : ℤ))) none none) =
        axisStart shape.1 (PyIndex.sl (some ((shape.1 : ℤ) - a))
          (some (shape.1 : ℤ)) none) := by
      simp only [axisStart, sIdx]
      rw [if_pos (by omega : -(a : ℤ) < 0), if_neg (by omega :
        ¬ (shape.1 : ℤ) - a < 0)]
      omega
    have hstop : axisStop shape.1
        (PyIndex.sl (some (-(a : ℤ))) none none) =
        axisStop shape.1 (PyIndex.sl (some ((shape.1 : ℤ) - a))
          (some (shape.1 : ℤ)) none) := by
      simp only [axisStop, eIdx]
      rw [if_neg (by omega : ¬ (shape.1 : ℤ) < 0)]
    simp only [getItem, axisLen, axisStep, axisSquish, hstart, hstop,
      Option.getD_none, Option.getD_some]
  · intro stp ky kx
    have hstart : axisStart shape.1 (PyIndex.sl none none stp) =
        axisStart shape.1
          (PyIndex.sl (some 0) (some (shape.1 : ℤ)) stp) := by
      simp only [axisStart, sIdx]
      rw [if_neg (by omega : ¬ (0 : ℤ) < 0)]
    have hstop : axisStop shape.1 (PyIndex.sl none none stp) =
        axisStop shape.1
          (PyIndex.sl (some 0) (some (shape.1 : ℤ)) stp) := by
      simp only [axisStop, eIdx]
      rw [if_neg (by omega : ¬ (shape.1 : ℤ) < 0)]
    simp only [getItem, axisLen, axisStep, axisSquish, hstart, hstop,
      Option.getD_none, Option.getD_some]
  · intro i hi ky kx
    have hstart : axisStart shape.1 (PyIndex.idx i) =
        axisStart shape.1 (PyIndex.sl (some i) (some (i + 1)) none) := by
      simp only [axisStart, sIdx]
    have hstop : axisStop shape.1 (PyIndex.idx i) =
        axisStop shape.1 (PyIndex.sl (some i) (some (i + 1)) none) := by
      simp only [axisStop, eIdx, sIdx]
      rw [if_neg (by omega : ¬ i < 0), if_neg (by omega : ¬ i + 1 < 0)]
    have hlen : axisLen shape.1 (PyIndex.idx i) = 1 := by
      simp only [axisLen, axisStop, axisStart, axisStep, sIdx]
      rw [if_neg (by omega : ¬ i < 0)]
      have h1 : i + 1 - i = 1 := by omega
      rw [h1]
      rfl
    refine ⟨?_, ?_, hlen, rfl, ?_⟩
    · simp only [getItem, axisLen, axisStep, hstart, hstop,
        Option.getD_none, Option.getD_some]
    · simp only [getItem, axisStep, hstart, hstop, Option.getD_none,
        Option.getD_some]
    · simp only [finalShape, getItem, axisLen, axisSquish, hstart, hstop,
        Option.getD_none, Option.getD_some]
      rfl
  · intro bz ez2 by2 ey2 bx ex2 kz ky kx hkz hky hkx
    constructor
    · intro i j k
      simp only [getItem, axisStep, axisStart, axisStop, Option.getD_some,
        Option.getD_none, Nat.mul_one]
    · simp only [getItem, axisLen, axisStep, axisStart, axisStop,
        Option.getD_some, Option.getD_none, Nat.add_sub_cancel,
        Nat.div_one]

/-- Closed witness for `getItem_slice_semantics` with a concrete reader:
`readc` returning the flattened query bounds, shape `(10, 20, 30)`,
`a = 4`, `i = 2`, steps `(2, 3, 5)`. -/
theorem getItem_slice_semantics_witness :
    (0 < (4 : ℕ) ∧ (4 : ℕ) ≤ 10 ∧ (0 : ℤ) ≤ 2 ∧ 0 < (2 : ℕ)) ∧
    getItem (fun a b c d e f _ _ _ => (a, b, c, d, e, f)) (10, 20, 30)
        (PyIndex.sl (some (-(4 : ℤ))) none none) (PyIndex.sl none none none)
        (PyIndex.sl none none none) =
      getItem (fun a b c d e f _ _ _ => (a, b, c, d, e, f)) (10, 20, 30)
        (PyIndex.sl (some ((10 : ℤ) - 4)) (some (10 : ℤ)) none)
        (PyIndex.sl none none none) (PyIndex.sl none none none) :=
  ⟨⟨by norm_num, by norm_num, by norm_num, by norm_num⟩,
    (getItem_slice_semantics (fun a b c d e f _ _ _ => (a, b, c, d, e, f))
      (10, 20, 30)).1 4 (by norm_num) (by norm_num)
      (PyIndex.sl none none none) (PyIndex.sl none none none)⟩

/-- Closed witness for `writeInfoSizes_ceilHalving` at the spec's concrete
scenario `N = 2`, extents `(x, y, z) = (300, 200, 101)`. -/
theorem writeInfoSizes_ceilHalving_witness :
    1 ≤ 2 ∧
    ((writeInfoSizes 2 300 200 101).length = 2 ∧
      (writeInfoSizes 2 300 200 101).head? = some (300, 200, 101) ∧
      (∀ i, i + 1 < 2 →
        (writeInfoSizes 2 300 200 101).get? (i + 1) =
          Option.map
            (fun s => (ceilHalf s.1, ceilHalf s.2.1, ceilHalf s.2.2))
            ((writeInfoSizes 2 300 200 101).get? i)) ∧
      writeInfoSizes 2 300 200 101 = [(300, 200, 101), (150, 100, 51)]) :=
  ⟨by norm_num, writeInfoSizes_ceilHalving 2 300 200 101 (by norm_num)⟩

/-! ### Theorems: DANDI stitcher (`DANDIArrayReader.get` / `read_chunk`) -/

/-- The distance plane of a source is non-negative at a voxel exactly
when the voxel lies inside the source's box. -/
lemma volDist_nonneg_iff (v : VolSrc) (gz gy gx : ℤ) :
    0 ≤ volDist v gz gy gx ↔ insideVol v gz gy gx := by
  unfold volDist
  simp only [insideVol]
  omega

/-- The ranking update ignores a source whose distance at the voxel is
negative (outside its box): neither `a_mask` nor `b_mask` can hold. -/
lemma blendStep_neg (st : BlendState) (p : ℕ × ℤ) (hp : p.2 < 0) :
    blendStep st p = st := by
  unfold blendStep
  rw [if_neg (by omega), if_neg (by omega)]

/-- Folding the ranking update over entries that are all negative-distance
leaves the state unchanged. -/
lemma foldl_blendStep_neg (L : List (ℕ × ℤ)) (st : BlendState)
    (hL : ∀ p ∈ L, p.2 < 0) :
    L.foldl blendStep st = st := by
  revert hL
  induction L with
  | nil => intro _; rfl
  | cons p t ih =>
      intro hL
      rw [List.foldl_cons, blendStep_neg st p (hL p (List.mem_cons_self p t))]
      exact ih fun q hq => hL q (List.mem_cons_of_mem p hq)

/-- Installing a non-negative-distance source into the initial state
makes it the closest-ranked `a`, with `b` still unset. -/
lemma blendStep_fresh (dv : ℕ) (d : ℤ) (hd : 0 ≤ d) :
    blendStep blendInit (dv, d) = ⟨dv, d, 0, -1⟩ := by
  unfold blendStep blendInit
  dsimp only
  rw [if_pos (by omega)]

/-- Installing a second non-negative-distance source when `a` is set and
`b` unset: the larger distance (ties to the newcomer) becomes `a`, the
other becomes `b`. -/
lemma blendStep_second (av bv pv : ℕ) (ad pd : ℤ)
    (had : 0 ≤ ad) (hpd : 0 ≤ pd) :
    blendStep ⟨av, ad, bv, -1⟩ (pv, pd) =
      if ad ≤ pd then ⟨pv, pd, av, ad⟩ else ⟨av, ad, pv, pd⟩ := by
  unfold blendStep
  dsimp only
  rcases le_or_lt ad pd with h | h
  · rw [if_pos (by omega), if_pos h]
  · rw [if_neg (by omega), if_pos (by omega), if_neg (by omega)]

/-- Inside the source box and the query region, the data plane of `get`
holds the source's own voxel value. -/
lemma volDatum_inside (v : VolSrc) (x0 x1 y0 y1 z0 z1 gz gy gx : ℤ)
    (hin : insideVol v gz gy gx)
    (hq : z0 ≤ gz ∧ gz < z1 ∧ y0 ≤ gy ∧ gy < y1 ∧ x0 ≤ gx ∧ gx < x1) :
    volDatum v x0 x1 y0 y1 z0 z1 gz gy gx = v.val gz gy gx := by
  obtain ⟨h1, h2, h3, h4, h5, h6⟩ := hin
  unfold volDatum
  rw [if_pos (by omega)]

/-- A source whose box holds a voxel of the query region passes the
bounding-box test of `get` (it does not return `None`). -/
lemma volIntersects_of_inside (v : VolSrc) (x0 x1 y0 y1 z0 z1 gz gy gx : ℤ)
    (hin : insideVol v gz gy gx)
    (hq : z0 ≤ gz ∧ gz < z1 ∧ y0 ≤ gy ∧ gy < y1 ∧ x0 ≤ gx ∧ gx < x1) :
    volIntersects v x0 x1 y0 y1 z0 z1 := by
  obtain ⟨h1, h2, h3, h4, h5, h6⟩ := hin
  simp only [volIntersects]
  omega

/-- Sources whose boxes miss the voxel produce negative-distance entries,
whether or not they intersect the query region. -/
lemma entries_neg_of_outside (L : List VolSrc)
    (x0 x1 y0 y1 z0 z1 gz gy gx : ℤ)
    (hout : ∀ v ∈ L, ¬ insideVol v gz gy gx) :
    ∀ p ∈ (L.filter fun v =>
        decide (volIntersects v x0 x1 y0 y1 z0 z1)).map
        (fun v => (volDatum v x0 x1 y0 y1 z0 z1 gz gy gx,
          volDist v gz gy gx)), p.2 < 0 := by
  intro p hp
  rw [List.mem_map] at hp
  obtain ⟨v, hv, rfl⟩ := hp
  have hv' : v ∈ L := List.mem_of_mem_filter hv
  have hni := hout v hv'
  by_contra hge
  exact hni ((volDist_nonneg_iff v gz gy gx).mp (by omega))

/-- C9: at a voxel of the query region held by exactly one source's box,
`DANDIArrayReader.read_chunk` returns that source's value unchanged
(whatever other sources intersect the query elsewhere), and at a voxel
held by no source's box it returns zero. -/
theorem dandi_single_or_zero (vols : List VolSrc)
    (x0 x1 y0 y1 z0 z1 gz gy gx : ℤ)
    (hq : z0 ≤ gz ∧ gz < z1 ∧ y0 ≤ gy ∧ gy < y1 ∧ x0 ≤ gx ∧ gx < x1) :
    (∀ L1 v L2, vols = L1 ++ v :: L2 → insideVol v gz gy gx →
        (∀ u ∈ L1, ¬ insideVol u gz gy gx) →
        (∀ u ∈ L2, ¬ insideVol u gz gy gx) →
        dandiReadVoxel vols x0 x1 y0 y1 z0 z1 gz gy gx =
          (v.val gz gy gx : ℝ)) ∧
    ((∀ u ∈ vols, ¬ insideVol u gz gy gx) →
        dandiReadVoxel vols x0 x1 y0 y1 z0 z1 gz gy gx = 0) := by
  constructor
  · intro L1 v L2 hsplit hin hL1 hL2
    subst hsplit
    have hint : volIntersects v x0 x1 y0 y1 z0 z1 :=
      volIntersects_of_inside v x0 x1 y0 y1 z0 z1 gz gy gx hin hq
    have hd : 0 ≤ volDist v gz gy gx :=
      (volDist_nonneg_iff v gz gy gx).mpr hin
    have hA := entries_neg_of_outside L1 x0 x1 y0 y1 z0 z1 gz gy gx hL1
    have hB := entries_neg_of_outside L2 x0 x1 y0 y1 z0 z1 gz gy gx hL2
    unfold dandiReadVoxel stitchVoxel
    rw [List.filter_append, List.filter_cons, if_pos (decide_eq_true hint),
      List.map_append, List.map_cons, List.foldl_append, List.foldl_cons,
      foldl_blendStep_neg _ blendInit hA,
      blendStep_fresh _ _ hd, foldl_blendStep_neg _ _ hB]
    dsimp only
    rw [if_neg (by norm_num), if_pos (by omega),
      volDatum_inside v x0 x1 y0 y1 z0 z1 gz gy gx hin hq]
  · intro hout
    unfold dandiReadVoxel stitchVoxel
    rw [foldl_blendStep_neg _ blendInit
      (entries_neg_of_outside vols x0 x1 y0 y1 z0 z1 gz gy gx hout)]
    unfold blendInit
    dsimp only
    rw [if_neg (by norm_num), if_neg (by norm_num)]

/-- Closed witness for `dandi_single_or_zero`: a single 2×2×2 source at
the origin with constant value 7, queried at voxel (1,1,1) of the region
`[0,2)³`, returns 7; with no source at all the same voxel reads 0. -/
theorem dandi_single_or_zero_witness :
    ((0:ℤ) ≤ 1 ∧ (1:ℤ) < 2 ∧ (0:ℤ) ≤ 1 ∧ (1:ℤ) < 2 ∧
      (0:ℤ) ≤ 1 ∧ (1:ℤ) < 2) ∧
    dandiReadVoxel [⟨0, 0, 0, 2, 2, 2, fun _ _ _ => 7⟩]
        0 2 0 2 0 2 1 1 1 = ((7:ℕ) : ℝ) ∧
    dandiReadVoxel ([] : List VolSrc) 0 2 0 2 0 2 1 1 1 = 0 :=
  ⟨by norm_num,
    (dandi_single_or_zero [⟨0, 0, 0, 2, 2, 2, fun _ _ _ => 7⟩]
        0 2 0 2 0 2 1 1 1 (by norm_num)).1
      [] ⟨0, 0, 0, 2, 2, 2, fun _ _ _ => 7⟩ [] rfl
      (by norm_num [insideVol]) (by simp) (by simp),
    (dandi_single_or_zero ([] : List VolSrc)
        0 2 0 2 0 2 1 1 1 (by norm_num)).2 (by simp)⟩

/-- Since `sin² + cos² = 1`, the cosine cross-fade is a convex
combination of the two values: it lies in `[min, max]`. -/
lemma blend_bounds (va vb : ℕ) (da db : ℤ) :
    min (va : ℝ) (vb : ℝ) ≤ blend va vb da db ∧
      blend va vb da db ≤ max (va : ℝ) (vb : ℝ) := by
  unfold blend
  have h1 : Real.sin (atan2 (da : ℝ) (db : ℝ)) ^ 2 +
      Real.cos (atan2 (da : ℝ) (db : ℝ)) ^ 2 = 1 :=
    Real.sin_sq_add_cos_sq _
  have hs2 : 0 ≤ Real.sin (atan2 (da : ℝ) (db : ℝ)) ^ 2 := sq_nonneg _
  have hc2 : 0 ≤ Real.cos (atan2 (da : ℝ) (db : ℝ)) ^ 2 := sq_nonneg _
  constructor
  · rcases le_total (va : ℝ) (vb : ℝ) with h | h
    · rw [min_eq_left h]
      nlinarith [mul_nonneg hc2 (sub_nonneg.mpr h)]
    · rw [min_eq_right h]
      nlinarith [mul_nonneg hs2 (sub_nonneg.mpr h)]
  · rcases le_total (va : ℝ) (vb : ℝ) with h | h
    · rw [max_eq_right h]
      nlinarith [mul_nonneg hs2 (sub_nonneg.mpr h)]
    · rw [max_eq_left h]
      nlinarith [mul_nonneg hc2 (sub_nonneg.mpr h)]

/-- C8: at a voxel of the query region held by exactly two sources'
boxes, `DANDIArrayReader.read_chunk` returns the cosine cross-fade
`sin(angle)²·value_a + cos(angle)²·value_b` with
`angle = arctan2(dist_a, dist_b)`, where `a` is the closest-ranked
(larger distance-to-edge, ties to the later source) of the two and `b`
the other; consequently the result lies within
`[min(value_u, value_w), max(value_u, value_w)]`. -/
theorem dandi_two_source_blend (vols L1 L2 L3 : List VolSrc) (u w : VolSrc)
    (x0 x1 y0 y1 z0 z1 gz gy gx : ℤ)
    (hq : z0 ≤ gz ∧ gz < z1 ∧ y0 ≤ gy ∧ gy < y1 ∧ x0 ≤ gx ∧ gx < x1)
    (hsplit : vols = L1 ++ u :: (L2 ++ w :: L3))
    (hinu : insideVol u gz gy gx) (hinw : insideVol w gz gy gx)
    (hL1 : ∀ p ∈ L1, ¬ insideVol p gz gy gx)
    (hL2 : ∀ p ∈ L2, ¬ insideVol p gz gy gx)
    (hL3 : ∀ p ∈ L3, ¬ insideVol p gz gy gx) :
    dandiReadVoxel vols x0 x1 y0 y1 z0 z1 gz gy gx =
      (if volDist u gz gy gx ≤ volDist w gz gy gx then
        blend (w.val gz gy gx) (u.val gz gy gx)
          (volDist w gz gy gx) (volDist u gz gy gx)
      else
        blend (u.val gz gy gx) (w.val gz gy gx)
          (volDist u gz gy gx) (volDist w gz gy gx)) ∧
    min (u.val gz gy gx : ℝ) (w.val gz gy gx : ℝ) ≤
        dandiReadVoxel vols x0 x1 y0 y1 z0 z1 gz gy gx ∧
      dandiReadVoxel vols x0 x1 y0 y1 z0 z1 gz gy gx ≤
        max (u.val gz gy gx : ℝ) (w.val gz gy gx : ℝ) := by
  subst hsplit
  have hintu := volIntersects_of_inside u x0 x1 y0 y1 z0 z1 gz gy gx hinu hq
  have hintw := volIntersects_of_inside w x0 x1 y0 y1 z0 z1 gz gy gx hinw hq
  have hdu : 0 ≤ volDist u gz gy gx :=
    (volDist_nonneg_iff u gz gy gx).mpr hinu
  have hdw : 0 ≤ volDist w gz gy gx :=
    (volDist_nonneg_iff w gz gy gx).mpr hinw
  have hA := entries_neg_of_outside L1 x0 x1 y0 y1 z0 z1 gz gy gx hL1
  have hB := entries_neg_of_outside L2 x0 x1 y0 y1 z0 z1 gz gy gx hL2
  have hC := entries_neg_of_outside L3 x0 x1 y0 y1 z0 z1 gz gy gx hL3
  have hmain : dandiReadVoxel (L1 ++ u :: (L2 ++ w :: L3))
      x0 x1 y0 y1 z0 z1 gz gy gx =
      if volDist u gz gy gx ≤ volDist w gz gy gx then
        blend (w.val gz gy gx) (u.val gz gy gx)
          (volDist w gz gy gx) (volDist u gz gy gx)
      else
        blend (u.val gz gy gx) (w.val gz gy gx)
          (volDist u gz gy gx) (volDist w gz gy gx) := by
    unfold dandiReadVoxel stitchVoxel
    rw [List.filter_append, List.filter_cons, if_pos (decide_eq_true hintu),
      List.filter_append, List.filter_cons, if_pos (decide_eq_true hintw),
      List.map_append, List.map_cons, List.map_append, List.map_cons,
      List.foldl_append, List.foldl_cons, List.foldl_append, List.foldl_cons,
      foldl_blendStep_neg _ blendInit hA,
      blendStep_fresh _ _ hdu,
      foldl_blendStep_neg _ _ hB,
      blendStep_second _ _ _ _ _ hdu hdw,
      foldl_blendStep_neg _ _ hC,
      volDatum_inside u x0 x1 y0 y1 z0 z1 gz gy gx hinu hq,
      volDatum_inside w x0 x1 y0 y1 z0 z1 gz gy gx hinw hq]
    rcases le_or_lt (volDist u gz gy gx) (volDist w gz gy gx) with h | h
    · rw [if_pos h, if_pos h]
      dsimp only
      rw [if_pos (by omega)]
    · have hne : ¬ (volDist u gz gy gx ≤ volDist w gz gy gx) := by omega
      rw [if_neg hne, if_neg hne]
      dsimp only
      rw [if_pos (by omega)]
  refine ⟨hmain, ?_, ?_⟩
  · rw [hmain]
    rcases le_or_lt (volDist u gz gy gx) (volDist w gz gy gx) with h | h
    · rw [if_pos h, min_comm]
      exact (blend_bounds (w.val gz gy gx) (u.val gz gy gx) _ _).1
    · rw [if_neg (by omega)]
      exact (blend_bounds (u.val gz gy gx) (w.val gz gy gx) _ _).1
  · rw [hmain]
    rcases le_or_lt (volDist u gz gy gx) (volDist w gz gy gx) with h | h
    · rw [if_pos h, max_comm]
      exact (blend_bounds (w.val gz gy gx) (u.val gz gy gx) _ _).2
    · rw [if_neg (by omega)]
      exact (blend_bounds (u.val gz gy gx) (w.val gz gy gx) _ _).2

/-- Closed witness for `dandi_two_source_blend`: a 2×2×2 source of
constant value 4 and a 4×4×4 source of constant value 8, both at the
origin, queried at voxel (1,1,1) of the region `[0,4)³` where both boxes
hold the voxel. -/
theorem dandi_two_source_blend_witness :
    ((0:ℤ) ≤ 1 ∧ (1:ℤ) < 4 ∧ (0:ℤ) ≤ 1 ∧ (1:ℤ) < 4 ∧
      (0:ℤ) ≤ 1 ∧ (1:ℤ) < 4) ∧
    (dandiReadVoxel [⟨0, 0, 0, 2, 2, 2, fun _ _ _ => 4⟩,
        ⟨0, 0, 0, 4, 4, 4, fun _ _ _ => 8⟩] 0 4 0 4 0 4 1 1 1 =
      (if volDist ⟨0, 0, 0, 2, 2, 2, fun _ _ _ => 4⟩ 1 1 1 ≤
          volDist ⟨0, 0, 0, 4, 4, 4, fun _ _ _ => 8⟩ 1 1 1 then
        blend 8 4 (volDist ⟨0, 0, 0, 4, 4, 4, fun _ _ _ => 8⟩ 1 1 1)
          (volDist ⟨0, 0, 0, 2, 2, 2, fun _ _ _ => 4⟩ 1 1 1)
      else
        blend 4 8 (volDist ⟨0, 0, 0, 2, 2, 2, fun _ _ _ => 4⟩ 1 1 1)
          (volDist ⟨0, 0, 0, 4, 4, 4, fun _ _ _ => 8⟩ 1 1 1)) ∧
      min ((4:ℕ) : ℝ) ((8:ℕ) : ℝ) ≤
        dandiReadVoxel [⟨0, 0, 0, 2, 2, 2, fun _ _ _ => 4⟩,
          ⟨0, 0, 0, 4, 4, 4, fun _ _ _ => 8⟩] 0 4 0 4 0 4 1 1 1 ∧
      dandiReadVoxel [⟨0, 0, 0, 2, 2, 2, fun _ _ _ => 4⟩,
          ⟨0, 0, 0, 4, 4, 4, fun _ _ _ => 8⟩] 0 4 0 4 0 4 1 1 1 ≤
        max ((4:ℕ) : ℝ) ((8:ℕ) : ℝ)) :=
  ⟨by norm_num,
    dandi_two_source_blend
      [⟨0, 0, 0, 2, 2, 2, fun _ _ _ => 4⟩, ⟨0, 0, 0, 4, 4, 4, fun _ _ _ => 8⟩]
      [] [] [] ⟨0, 0, 0, 2, 2, 2, fun _ _ _ => 4⟩
      ⟨0, 0, 0, 4, 4, 4, fun _ _ _ => 8⟩ 0 4 0 4 0 4 1 1 1
      (by norm_num) rfl (by norm_num [insideVol]) (by norm_num [insideVol])
      (by simp) (by simp) (by simp)⟩

end PrecomputedTif
